import Mathlib

namespace Spec2Proof

/-!
Verification of the extraction-and-normalization pipeline of the
agentic-generator-paper repository (src/src/crewai/extractor.py,
src/src/crewai/models.py, src/src/parser.py).

Python text-processing code is shallowly embedded over `List Char` /
`String`; the regular expressions of the source are embedded as the
deterministic scanning functions they denote (each regex in the source
admits a unique successful match at a given position, so maximal-munch
scanning is extensionally equal to the backtracking engine on the
patterns involved; this is argued pattern by pattern in the comments).
Character classes follow their ASCII semantics, matching the ASCII
subset of Python's behaviour.

SPARQL query results are modelled as explicit row lists handed to the
extraction functions, mirroring how `rdflib` hands rows to the code
under verification; the extraction logic itself is translated
line by line from the source.
-/

/-! ### Basic character helpers (ASCII semantics of Python's str methods) -/

/-- Python whitespace for `str.strip` / `\s` (ASCII subset). -/
def isPySpace (c : Char) : Bool :=
  c = ' ' || c = '\t' || c = '\n' || c = '\r' || c = '\x0b' || c = '\x0c'

/-- Python `\w` (ASCII subset): letters, digits, underscore. -/
def isWordChar (c : Char) : Bool :=
  c.isAlpha || c.isDigit || c = '_'

/-- The double-quote character. -/
def dquote : Char := Char.ofNat 34

/-- The single-quote character. -/
def squote : Char := Char.ofNat 39

/-- Strip a character class from both ends of a char list
(Python `str.strip(chars)`). -/
def stripEnds (p : Char → Bool) (cs : List Char) : List Char :=
  ((cs.dropWhile p).reverse.dropWhile p).reverse

/-- Python `str.strip()` on char lists. -/
def pyStripChars (cs : List Char) : List Char :=
  stripEnds isPySpace cs

/-- Python `str.strip()` on strings. -/
def pyStrip (s : String) : String :=
  ⟨pyStripChars s.data⟩

/-- The `_s` helper of extractor.py: convert an rdflib term to a stripped
string ( `str(val).strip() if val else ""` ); unbound terms are modelled
as `""` which strips to `""`. -/
def rowStr (s : String) : String := pyStrip s

/-- Lowercase a char list (ASCII, Python `str.lower`). -/
def lowerChars (cs : List Char) : List Char := cs.map Char.toLower

/-- Lowercase a string. -/
def lowerStr (s : String) : String := ⟨lowerChars s.data⟩

/-- Is `needle` a leading block of `haystack`? -/
def leadingBlock : List Char → List Char → Bool
  | [], _ => true
  | _ :: _, [] => false
  | a :: as, b :: bs => a = b && leadingBlock as bs

/-- Python `needle in haystack` substring test on char lists. -/
def containsSub (needle : List Char) : List Char → Bool
  | [] => needle.isEmpty
  | h :: t => leadingBlock needle (h :: t) || containsSub needle t

/-- Python `needle in haystack` substring test on strings. -/
def strContains (haystack needle : String) : Bool :=
  containsSub needle.data haystack.data

/-- Suffix of `cs` after the last occurrence of `sep`
(Python `s.split(sep)[-1]` and `s.rsplit(sep, 1)[-1]`). -/
def lastSeg (sep : Char) (cs : List Char) : List Char :=
  ((cs.reverse.takeWhile (fun c => ¬ (c = sep))).reverse)

/-- Python `s.split(sep)` keeping empty fields. -/
def splitOnChar (sep : Char) : List Char → List (List Char)
  | [] => [[]]
  | c :: rest =>
    let r := splitOnChar sep rest
    if c = sep then [] :: r
    else
      match r with
      | [] => [[c]]
      | seg :: segs => (c :: seg) :: segs

/-- Python `"x".isdigit()` (ASCII): nonempty and all digits. -/
def isDigitStr (cs : List Char) : Bool :=
  ¬ cs.isEmpty && cs.all Char.isDigit

/-! ### `_safe_var` — identifier normalization (extractor.py lines 46-64)

```
name = iri.split("/")[-1].split("#")[-1]
name = re.sub(r"(?<=[a-z0-9])([A-Z])", r"_\1", name)
name = re.sub(r"(?<=[A-Z])([A-Z][a-z])", r"_\1", name)
name = re.sub(r"[^a-zA-Z0-9_]", "_", name)
name = re.sub(r"_+", "_", name).strip("_").lower()
```
Each `re.sub` is embedded as the char-list transformation it denotes:
the first two consume one resp. two characters per match with a
one-character lookbehind on the input string, so a left-to-right pass
carrying the previous input character is exact. -/

/-- Embeds `re.sub(r"(?<=[a-z0-9])([A-Z])", r"_\1", ...)`:
insert `_` before an uppercase letter preceded by a lowercase letter or
digit. -/
def camelSub1 : Option Char → List Char → List Char
  | _, [] => []
  | prev, c :: rest =>
    if c.isUpper && (match prev with
        | some p => p.isLower || p.isDigit
        | none => false) then
      '_' :: c :: camelSub1 (some c) rest
    else
      c :: camelSub1 (some c) rest

/-- Embeds `re.sub(r"(?<=[A-Z])([A-Z][a-z])", r"_\1", ...)`:
insert `_` before an uppercase-lowercase pair preceded by an uppercase
letter.  A match consumes both characters, so after a match the
lookbehind character for the rest of the scan is the lowercase one. -/
def camelSub2 : Option Char → List Char → List Char
  | _, [] => []
  | _, [c] => [c]
  | prev, c1 :: c2 :: rest =>
    if (match prev with | some p => p.isUpper | none => false)
        && c1.isUpper && c2.isLower then
      '_' :: c1 :: c2 :: camelSub2 (some c2) rest
    else
      c1 :: camelSub2 (some c1) (c2 :: rest)

/-- Embeds `re.sub(r"_+", "_", ...)`: collapse runs of underscores. -/
def collapseU : Option Char → List Char → List Char
  | _, [] => []
  | prev, c :: rest =>
    if c = '_' && prev = some '_' then collapseU prev rest
    else c :: collapseU (some c) rest

/-- Final step of `_safe_var`: empty fallback and digit prefixing
(`if not name: return "unnamed"` / `if name[0].isdigit(): ...`). -/
def safeVarFinish (n4 : List Char) : String :=
  match n4 with
  | [] => "unnamed"
  | c :: cs => if c.isDigit then ⟨'_' :: c :: cs⟩ else ⟨c :: cs⟩

/-- The `_safe_var` helper of extractor.py: IRI fragment → snake_case identifier. -/
def safeVar (iri : String) : String :=
  if iri = "" then "unnamed"
  else
    let name0 := lastSeg '#' (lastSeg '/' iri.data)
    let n1 := camelSub1 none name0
    let n2 := camelSub2 none n1
    let n3 := n2.map (fun c => if c.isAlphanum || c = '_' then c else '_')
    safeVarFinish (lowerChars (stripEnds (fun c => c = '_') (collapseU none n3)))

/-! ### Insertion-ordered dictionaries

Python `dict` preserves insertion order; it is modelled as an
association list with the operations the source uses. -/

/-- Dict read `d[k]` / `d.get(k)`: first entry with the key. -/
def alookup {κ α : Type} [DecidableEq κ] : List (κ × α) → κ → Option α
  | [], _ => none
  | e :: rest, k => if e.1 = k then some e.2 else alookup rest k

/-- Update the value at a present key in place (`d[k].field = ...`). -/
def aupdate {κ α : Type} [DecidableEq κ] : List (κ × α) → κ → (α → α) →
    List (κ × α)
  | [], _, _ => []
  | e :: rest, k, f =>
    if e.1 = k then (e.1, f e.2) :: aupdate rest k f
    else e :: aupdate rest k f

/-- Dict write `d[k] = v`: overwrite if present, else append (insertion order). -/
def aset {κ α : Type} [DecidableEq κ] (m : List (κ × α)) (k : κ) (v : α) :
    List (κ × α) :=
  match alookup m k with
  | some _ => aupdate m k (fun _ => v)
  | none => m ++ [(k, v)]

/-! ### `_parse_config_kv_from_ttl` — Raw-Text Companion Parser
(extractor.py lines 445-484)

`re.finditer` is embedded in two steps: `allMatches…` records, for
every start position, whether the pattern matches there (with the
captured groups and the match end); `keepNonOverlapping` then retains
leftmost non-overlapping matches, which is exactly `finditer`'s
behaviour.  The two patterns are deterministic: every greedy or lazy
sub-expression in them is followed by a character its class excludes,
so backtracking can never produce a second successful parse, and a
maximal-munch scan is extensionally equal to the regex engine. -/

/-- Match an exact literal, returning the rest of the text. -/
def dropLiteral : List Char → List Char → Option (List Char)
  | [], t => some t
  | _ :: _, [] => none
  | p :: ps, t :: ts => if p = t then dropLiteral ps ts else none

/-- Match `:(\S+)\s+a\s+:Config\b` at the head of the text, returning
the captured group and the text after the match. -/
def matchConfigDecl : List Char → Option (List Char × List Char)
  | [] => none
  | c0 :: rest =>
    if c0 = ':' then
      let name := rest.takeWhile (fun c => ¬ isPySpace c)
      let r1 := rest.dropWhile (fun c => ¬ isPySpace c)
      if name.isEmpty || r1.isEmpty then none
      else
        match r1.dropWhile isPySpace with
        | 'a' :: r3 =>
          if (r3.takeWhile isPySpace).isEmpty then none
          else
            match dropLiteral ":Config".data (r3.dropWhile isPySpace) with
            | some r5 =>
              match r5 with
              | [] => some (name, [])
              | c :: _ => if isWordChar c then none else some (name, r5)
            | none => none
        | _ => none
    else none

/-- All positions where the Config-declaration pattern matches,
with capture and match end. -/
def allMatchesCfg : Nat → List Char → List (Nat × List Char × Nat)
  | _, [] => []
  | pos, c :: rest =>
    match matchConfigDecl (c :: rest) with
    | some (name, after) =>
      (pos, name, pos + ((c :: rest).length - after.length)) ::
        allMatchesCfg (pos + 1) rest
    | none => allMatchesCfg (pos + 1) rest

/-- Like `finditer`, keep leftmost matches, resuming past the end of
each kept match: drop candidates starting before the threshold. -/
def keepNonOverlapping {α : Type} : Nat → List (Nat × α × Nat) →
    List (Nat × α)
  | _, [] => []
  | th, (s, x, e) :: rest =>
    if th ≤ s then (s, x) :: keepNonOverlapping e rest
    else keepNonOverlapping th rest

/-- Embeds `config_decl_pattern.finditer(raw_ttl)` as `(start, local_name)`
pairs. -/
def scanConfigDecls (cs : List Char) : List (Nat × List Char) :=
  keepNonOverlapping 0 (allMatchesCfg 0 cs)

/-- The value group `((?:[^"\\]|\\.)*)"` : scan to the closing quote,
keeping escape sequences verbatim; a backslash before a newline or at
the end of the text aborts the match, as it does for the regex. -/
def scanQuoted : List Char → Option (List Char × List Char)
  | [] => none
  | c :: rest =>
    if c = dquote then some ([], rest)
    else if c = '\\' then
      match rest with
      | [] => none
      | c2 :: rest2 =>
        if c2 = '\n' then none
        else
          match scanQuoted rest2 with
          | some (v, r) => some ('\\' :: c2 :: v, r)
          | none => none
    else
      match scanQuoted rest with
      | some (v, r) => some (c :: v, r)
      | none => none

/-- Match
`:configKey\s+"([^"]*?)"\s*;\s*:configValue\s+"((?:[^"\\]|\\.)*)"\s*`
at the head of the text, returning `(key, value, rest)`. -/
def matchKVDecl (cs : List Char) : Option (List Char × List Char × List Char) :=
  match dropLiteral ":configKey".data cs with
  | none => none
  | some r0 =>
    if (r0.takeWhile isPySpace).isEmpty then none
    else
      match r0.dropWhile isPySpace with
      | c :: r2 =>
        if c = dquote then
          let key := r2.takeWhile (fun c => ¬ (c = dquote))
          match r2.dropWhile (fun c => ¬ (c = dquote)) with
          | [] => none
          | _ :: r3 =>
            match r3.dropWhile isPySpace with
            | ';' :: r4 =>
              match dropLiteral ":configValue".data (r4.dropWhile isPySpace) with
              | none => none
              | some r6 =>
                if (r6.takeWhile isPySpace).isEmpty then none
                else
                  match r6.dropWhile isPySpace with
                  | c2 :: r8 =>
                    if c2 = dquote then
                      match scanQuoted r8 with
                      | some (v, r9) => some (key, v, r9.dropWhile isPySpace)
                      | none => none
                    else none
                  | [] => none
            | _ => none
        else none
      | [] => none

/-- All positions where the key/value pattern matches. -/
def allMatchesKV : Nat → List Char →
    List (Nat × (List Char × List Char) × Nat)
  | _, [] => []
  | pos, c :: rest =>
    match matchKVDecl (c :: rest) with
    | some (k, v, after) =>
      (pos, (k, v), pos + ((c :: rest).length - after.length)) ::
        allMatchesKV (pos + 1) rest
    | none => allMatchesKV (pos + 1) rest

/-- Embeds `kv_pattern.finditer(raw_ttl)` as `(start, (key, value))` pairs. -/
def scanKVDecls (cs : List Char) : List (Nat × (List Char × List Char)) :=
  keepNonOverlapping 0 (allMatchesKV 0 cs)

/-- Owner resolution of `_parse_config_kv_from_ttl`: walk the Config
declarations in reversed order and take the first whose position is at
or before the pair's position — the nearest preceding declaration. -/
def nearestPrecedingCfg (cfgs : List (Nat × List Char)) (p : Nat) :
    Option (List Char) :=
  (cfgs.reverse.find? (fun c => decide (c.1 ≤ p))).map (fun c => c.2)

/-- Embeds `result.setdefault(owner, []).append((key, value))`. -/
def addKV (res : List (List Char × List (List Char × List Char)))
    (o : List Char) (kv : List Char × List Char) :
    List (List Char × List (List Char × List Char)) :=
  match alookup res o with
  | some _ => aupdate res o (fun l => l ++ [kv])
  | none => res ++ [(o, [kv])]

/-- Body of the per-pair loop of `_parse_config_kv_from_ttl` (the
`if owner:` test skips a falsy owner, i.e. `None` or the empty name). -/
def configKVStep (cfgs : List (Nat × List Char))
    (res : List (List Char × List (List Char × List Char)))
    (kv : Nat × (List Char × List Char)) :
    List (List Char × List (List Char × List Char)) :=
  match nearestPrecedingCfg cfgs kv.1 with
  | some owner => if owner.isEmpty then res else addKV res owner kv.2
  | none => res

/-- The function `_parse_config_kv_from_ttl`: Config-node local name → ordered
key/value pairs, recovered from the raw serialized text. -/
def parse_config_kv_from_ttl (raw : List Char) :
    List (List Char × List (List Char × List Char)) :=
  let cfgs := scanConfigDecls raw
  if cfgs.isEmpty then []
  else (scanKVDecls raw).foldl (configKVStep cfgs) []

/-- The key/value pairs of `kvs` owned by Config node `n`, in text
order — the reference value of the per-node result list. -/
def selKV (cfgs : List (Nat × List Char)) (n : List Char)
    (kvs : List (Nat × (List Char × List Char))) :
    List (List Char × List Char) :=
  (kvs.filter (fun kv => decide (nearestPrecedingCfg cfgs kv.1 = some n))).map
    (fun kv => kv.2)

/-- Append pairs to an optional per-node list, treating "no entry yet"
as the empty list that `setdefault` would create. -/
def optAppend {α : Type} (o : Option (List α)) (l : List α) :
    Option (List α) :=
  match o with
  | some xs => some (xs ++ l)
  | none => if l.isEmpty then none else some l

/-- A concrete serialized document for the C1 witness: one Config node
with the two key/value pairs of the claim. -/
def sampleTTL : List Char :=
  (":cfg1 a :Config ;\n    :configKey \"role\" ;\n    :configValue \"Analyst\" ;\n    :configKey \"goal\" ;\n    :configValue \"Find trends\" .").data

/-! ### Graph Loader (parser.py, `parse_kg` lines 15-22)

The two `rdflib` parse attempts (`format="turtle"`, then
`format="xml"`) are external calls; they are modelled as `Except`
results handed to the control flow translated from the source.  The
`ValueError` raised when both fail is the spec's `GraphParseError`; its
message string is built exactly as the f-string in the source. -/

/-- Message of the error raised when both parse attempts fail; it
embeds the file path and the original (primary-attempt) parser
message. -/
def parseErrorMessage (path err : String) : String :=
  "Failed to parse RDF file. Please check TTL syntax in " ++ path ++
    ". Error: " ++ err

/-- Load section of `parse_kg`: try the primary syntax; on failure try
the alternate syntax; if both fail, raise the parse error carrying the
original low-level message and the file path. -/
def parse_kg_load {γ : Type} (turtle xml : Except String γ)
    (path : String) : Except String γ :=
  match turtle with
  | Except.ok g => Except.ok g
  | Except.error e =>
    match xml with
    | Except.ok g => Except.ok g
    | Except.error _ => Except.error (parseErrorMessage path e)

/-! ### Process-type resolution
(`_infer_process_from_text` lines 387-401, `_extract_team` lines
512-567 of extractor.py)

The SPARQL query results (`TEAM_QUERY`, `TEAM_PROCESS_QUERY`,
`WORKFLOW_PATTERN_TEXT_QUERY`, `TEAM_DESC_QUERY`) are modelled as row
lists; every row field goes through the `_s` helper as in the
source. -/

/-- The `ProcessType` enum of models.py. -/
inductive ProcessType where
  | SEQUENTIAL
  | HIERARCHICAL
deriving DecidableEq, Repr

/-- The `_infer_process_from_text` helper: checks for the substring
`"hierarchical"` first, then `"sequential"`, on the lowercased text. -/
def infer_process_from_text (text : String) : Option ProcessType :=
  if text = "" then none
  else
    let lower := lowerStr text
    if strContains lower "hierarchical" then some ProcessType.HIERARCHICAL
    else if strContains lower "sequential" then some ProcessType.SEQUENTIAL
    else none

/-- Loop body of Strategy 1 of `_extract_team`: a row whose lowercased
value contains "hierarchical" or "sequential" overwrites the process
and sets `detected`. -/
def teamProcessStep (acc : ProcessType × Bool) (v : String) :
    ProcessType × Bool :=
  let val := lowerStr (rowStr v)
  if strContains val "hierarchical" then (ProcessType.HIERARCHICAL, true)
  else if strContains val "sequential" then (ProcessType.SEQUENTIAL, true)
  else acc

/-- Strategy 1 of `_extract_team`: explicit configKey "process" rows;
every row is examined. -/
def teamProcessStrategy1 (processRows : List String) : ProcessType × Bool :=
  processRows.foldl teamProcessStep (ProcessType.SEQUENTIAL, false)

/-- A `WORKFLOW_PATTERN_TEXT_QUERY` row: label, description, comment,
title of a WorkflowPattern node (empty string for unbound). -/
structure WPTextRow where
  label : String
  desc : String
  comment : String
  title : String
deriving DecidableEq, Repr

/-- The four text fields of a WorkflowPattern row, in the order the
source scans them. -/
def wpFieldList (r : WPTextRow) : List String :=
  [rowStr r.label, rowStr r.desc, rowStr r.comment, rowStr r.title]

/-- Inner field loop of Strategy 2: each inferred value overwrites the
process and sets `detected`; the loop breaks as soon as a field infers
HIERARCHICAL. -/
def scanFields : List String → ProcessType × Bool → ProcessType × Bool
  | [], acc => acc
  | f :: rest, acc =>
    match infer_process_from_text f with
    | some ProcessType.HIERARCHICAL => (ProcessType.HIERARCHICAL, true)
    | some ProcessType.SEQUENTIAL =>
      scanFields rest (ProcessType.SEQUENTIAL, true)
    | none => scanFields rest acc

/-- Outer row loop of Strategy 2: breaks once the process is detected
as HIERARCHICAL, otherwise keeps scanning further rows. -/
def scanWPRows : List WPTextRow → ProcessType × Bool → ProcessType × Bool
  | [], acc => acc
  | r :: rest, acc =>
    let next := scanFields (wpFieldList r) acc
    if next.2 && decide (next.1 = ProcessType.HIERARCHICAL) then next
    else scanWPRows rest next

/-- A `TEAM_DESC_QUERY` row: description and comment of a Team node. -/
structure TeamDescRow where
  desc : String
  comment : String
deriving DecidableEq, Repr

/-- Strategy 3 of `_extract_team`: scan the Team's description and
comment; the loops break at the first field that infers a value. -/
def scanTeamDescRows : List TeamDescRow → ProcessType × Bool →
    ProcessType × Bool
  | [], acc => acc
  | r :: rest, acc =>
    match infer_process_from_text (rowStr r.desc) with
    | some v => (v, true)
    | none =>
      match infer_process_from_text (rowStr r.comment) with
      | some v => (v, true)
      | none => scanTeamDescRows rest acc

/-- Process-type resolution of `_extract_team`: Strategy 1 (explicit
config), then Strategy 2 (WorkflowPattern texts), then Strategy 3
(Team description/comment); `process` starts as SEQUENTIAL. -/
def extract_team_process (processRows : List String)
    (wpRows : List WPTextRow) (teamDescRows : List TeamDescRow) :
    ProcessType :=
  let a1 := teamProcessStrategy1 processRows
  let a2 := if a1.2 then a1 else scanWPRows wpRows a1
  let a3 := if a2.2 then a2 else scanTeamDescRows teamDescRows a2
  a3.1

/-- Embeds `re.sub(r"[^a-zA-Z0-9]", "", label)` of `_extract_team`. -/
def stripNonAlnumStr (s : String) : String :=
  ⟨s.data.filter (fun c => c.isAlphanum)⟩

/-- The `_extract_team` function: crew name from the first Team row's
label (cleaned, falling back to "MyCrew"), description from that row,
and the resolved process type. -/
def extract_team (teamRows : List (String × String))
    (processRows : List String) (wpRows : List WPTextRow)
    (teamDescRows : List TeamDescRow) : String × String × ProcessType :=
  let nameDesc :=
    match teamRows with
    | [] => ("MyCrew", "")
    | (lab, d) :: _ =>
      let label := rowStr lab
      if label = "" then ("MyCrew", rowStr d)
      else
        let cn := stripNonAlnumStr label
        (if cn = "" then "MyCrew" else cn, rowStr d)
  (nameDesc.1, nameDesc.2,
    extract_team_process processRows wpRows teamDescRows)

/-! ### IR models (models.py)

Pydantic models become structures; `Optional[...]` fields become
`Option`, with the pydantic defaults supplied at construction sites
exactly as the source does. -/

/-- models.py `LanguageModelModel`. -/
structure LanguageModelModel where
  iri : String
  name : String
  description : String
  provider : String
  model_name : String
deriving DecidableEq, Repr

/-- models.py `ToolConfigModel`. -/
structure ToolConfigModel where
  key : String
  value : String
deriving DecidableEq, Repr

/-- models.py `ToolModel`. -/
structure ToolModel where
  iri : String
  var_name : String
  label : String
  class_name : String
  description : String
  configs : List ToolConfigModel
  capabilities : List String
deriving DecidableEq, Repr

/-- models.py `AgentModel`; `allow_delegation` and `verbose` are
tri-state (`none` = unknown, omitted from output). -/
structure AgentModel where
  iri : String
  var_name : String
  agent_id : String
  role : String
  goal : String
  backstory : String
  tool_var_names : List String
  llm : Option LanguageModelModel
  allow_delegation : Option Bool
  verbose : Option Bool
deriving DecidableEq, Repr

/-- models.py `TaskModel`. -/
structure TaskModel where
  iri : String
  var_name : String
  description : String
  expected_output : String
  agent_var_name : String
  context_task_var_names : List String
  output_json_model : Option String
deriving DecidableEq, Repr

/-- models.py `WorkflowStepModel`. -/
structure WorkflowStepModel where
  step_order : Int
  task_var_name : String
  step_type : String
deriving DecidableEq, Repr

/-- models.py `ConfigModel` (environment key/value entry). -/
structure ConfigModel where
  key : String
  value : String
deriving DecidableEq, Repr

/-- models.py `InputVariableModel`. -/
structure InputVariableModel where
  name : String
  default_value : String
deriving DecidableEq, Repr

/-! ### `_parse_bool_from_text` (extractor.py lines 404-431)

The pattern `(?:key|CamelKey)\s*[:=]\s*(\S+)` with `re.IGNORECASE` is
embedded as a scan over start positions (`re.search` = leftmost
match); at a position each alternative is tried in order, and the
greedy pieces are deterministic as before. -/

/-- Python `str.capitalize`: first char upper, rest lower. -/
def capitalizePy : List Char → List Char
  | [] => []
  | c :: rest => c.toUpper :: rest.map Char.toLower

/-- CamelCase variant of a snake_case key:
`"".join(w.capitalize() for w in key.split("_"))`. -/
def camelVariant (key : String) : String :=
  ⟨((splitOnChar '_' key.data).map capitalizePy).flatten⟩

/-- Case-insensitive literal match (ASCII), returning the rest. -/
def matchCI : List Char → List Char → Option (List Char)
  | [], t => some t
  | _ :: _, [] => none
  | p :: ps, t :: ts => if p.toLower = t.toLower then matchCI ps ts else none

/-- Try each alternative key at this position, followed by
`\s*[:=]\s*(\S+)`; returns the captured token. -/
def tryKeyValAt : List (List Char) → List Char → Option (List Char)
  | [], _ => none
  | a :: rest, suffix =>
    match matchCI a suffix with
    | none => tryKeyValAt rest suffix
    | some r1 =>
      match r1.dropWhile isPySpace with
      | [] => tryKeyValAt rest suffix
      | c :: r3 =>
        if c = ':' || c = '=' then
          let tok := (r3.dropWhile isPySpace).takeWhile
            (fun d => ¬ isPySpace d)
          if tok.isEmpty then tryKeyValAt rest suffix else some tok
        else tryKeyValAt rest suffix

/-- Embeds `re.search`: try the pattern at each position left to
right. -/
def searchKeyVal (alts : List (List Char)) : List Char → Option (List Char)
  | [] => none
  | c :: rest =>
    match tryKeyValAt alts (c :: rest) with
    | some tok => some tok
    | none => searchKeyVal alts rest

/-- Characters stripped from the captured value:
`val.strip().strip("'\",;.")`. -/
def isPunctStrip (c : Char) : Bool :=
  c = squote || c = dquote || c = ',' || c = ';' || c = '.'

/-- The `_parse_bool_from_text` helper: find `key: value` /
`key=value` / CamelCase-key variants case-insensitively and map the
first captured token to a boolean; an unrecognized token yields
`None` without looking at later matches. -/
def parse_bool_from_text (text : String) (key : String) : Option Bool :=
  if text = "" then none
  else
    match searchKeyVal [key.data, (camelVariant key).data] text.data with
    | none => none
    | some tok =>
      let val := stripEnds isPunctStrip (pyStripChars tok)
      let low := lowerChars val
      if low = "false".data || low = "0".data || low = "no".data ||
          low = "none".data then some false
      else if low = "true".data || low = "1".data || low = "yes".data ||
          isDigitStr val then some true
      else none

/-! ### `_extract_agents` (extractor.py lines 641-805)

Each SPARQL query's result set is a row list; every stage of the
function body becomes a fold over its rows, mutating the
insertion-ordered agents dict. -/

/-- An `AGENTS_QUERY` row. -/
structure AgentRow where
  agent : String
  agentID : String
  role : String
  label : String
deriving DecidableEq, Repr

/-- A generic two-column query row (agent/goal, agent/instruction,
agent/tool, agent/lm, agent/value, agent/cfg, task/resource, ...). -/
structure PairRow where
  a : String
  b : String
deriving DecidableEq, Repr

/-- A three-column query row (e.g. agent/key/value). -/
structure TripleRow where
  a : String
  b : String
  c : String
deriving DecidableEq, Repr

/-- An `AGENT_TEXT_FIELDS_QUERY` row. -/
structure AgentTextRow where
  agent : String
  desc : String
  comment : String
  promptCtx : String
  promptInstr : String
deriving DecidableEq, Repr

/-- Embeds `re.match(r'^[a-z_][a-z0-9_]*$', var_name)`. -/
def validVarName (s : String) : Bool :=
  match s.data with
  | [] => false
  | c :: rest =>
    (c.isLower || c = '_') &&
      rest.all (fun d => d.isLower || d.isDigit || d = '_')

/-- Var-name choice of the primary agent loop:
`agent_id or label or _safe_var(iri)`, re-normalized unless already a
valid identifier. -/
def mkVarName (agent_id label iri : String) : String :=
  let v := if ¬ agent_id = "" then agent_id
    else if ¬ label = "" then label
    else safeVar iri
  if validVarName v then v else safeVar v

/-- Body of the primary properties loop: skip an already-seen IRI,
otherwise append a fresh `AgentModel` with empty goal/backstory and
tri-state flags unset. -/
def primaryStep (acc : List (String × AgentModel)) (r : AgentRow) :
    List (String × AgentModel) :=
  let iri := rowStr r.agent
  match alookup acc iri with
  | some _ => acc
  | none =>
    let agent_id := rowStr r.agentID
    let label := rowStr r.label
    acc ++ [(iri, AgentModel.mk iri (mkVarName agent_id label iri)
      agent_id (rowStr r.role) "" "" [] none none none)]

/-- Primary properties loop: one `AgentModel` per distinct agent IRI. -/
def agentsStagePrimary (rows : List AgentRow) : List (String × AgentModel) :=
  rows.foldl primaryStep []

/-- Goal from `hasAgentGoal` → Goal description, first writer wins. -/
def agentsStageGoal (ags : List (String × AgentModel)) (rows : List PairRow) :
    List (String × AgentModel) :=
  rows.foldl
    (fun acc r =>
      aupdate acc (rowStr r.a)
        (fun a => if a.goal = "" then { a with goal := rowStr r.b } else a))
    ags

/-- Config fallback for role/goal/backstory (key lowercased, field
filled only when still empty). -/
def agentsStageConfig (ags : List (String × AgentModel))
    (rows : List TripleRow) : List (String × AgentModel) :=
  rows.foldl
    (fun acc r =>
      let key := lowerStr (rowStr r.b)
      let value := rowStr r.c
      aupdate acc (rowStr r.a)
        (fun a =>
          if key = "goal" ∧ a.goal = "" then { a with goal := value }
          else if key = "backstory" ∧ a.backstory = "" then
            { a with backstory := value }
          else if key = "role" ∧ a.role = "" then { a with role := value }
          else a))
    ags

/-- Backstory from a linked prompt's instruction, if still empty. -/
def agentsStageBackstory (ags : List (String × AgentModel))
    (rows : List PairRow) : List (String × AgentModel) :=
  rows.foldl
    (fun acc r =>
      aupdate acc (rowStr r.a)
        (fun a =>
          if a.backstory = "" then { a with backstory := rowStr r.b }
          else a))
    ags

/-- Agent→Tool usage links (appended without duplicates, only for
tools present in the tools map). -/
def agentsStageTools (ags : List (String × AgentModel))
    (rows : List PairRow) (tools_map : List (String × ToolModel)) :
    List (String × AgentModel) :=
  rows.foldl
    (fun acc r =>
      match alookup tools_map (rowStr r.b) with
      | none => acc
      | some t =>
        aupdate acc (rowStr r.a)
          (fun a =>
            if t.var_name ∈ a.tool_var_names then a
            else
              { a with tool_var_names := a.tool_var_names ++ [t.var_name] }))
    ags

/-- Agent→LanguageModel links. -/
def agentsStageLLM (ags : List (String × AgentModel))
    (rows : List PairRow) (lm_map : List (String × LanguageModelModel)) :
    List (String × AgentModel) :=
  rows.foldl
    (fun acc r =>
      match alookup lm_map (rowStr r.b) with
      | none => acc
      | some lm => aupdate acc (rowStr r.a) (fun a => { a with llm := some lm }))
    ags

/-- Collect boolean-like config values per agent as (sawTrue, sawFalse)
flag pairs — the `Set[bool]` of the source. -/
def collectStep (ags : List (String × AgentModel))
    (accept : String → Bool) (toBool : String → Bool)
    (m : List (String × (Bool × Bool))) (r : PairRow) :
    List (String × (Bool × Bool)) :=
  let iri := rowStr r.a
  match alookup ags iri with
  | none => m
  | some _ =>
    let val := lowerStr (pyStrip (rowStr r.b))
    if accept val then
      let b := toBool val
      match alookup m iri with
      | some tf => aset m iri (tf.1 || b, tf.2 || !b)
      | none => m ++ [(iri, (b, !b))]
    else m

/-- Collect boolean-like config values per agent (driver). -/
def collectBools (ags : List (String × AgentModel)) (rows : List PairRow)
    (accept : String → Bool) (toBool : String → Bool) :
    List (String × (Bool × Bool)) :=
  rows.foldl (collectStep ags accept toBool) []

/-- Accepted tokens for the dedicated allow_delegation config query. -/
def delegAccept (val : String) : Bool :=
  val = "true" || val = "false" || val = "0" || val = "1" ||
    val = "yes" || val = "no"

/-- Truthy classification for allow_delegation values. -/
def delegToBool (val : String) : Bool :=
  val = "true" || val = "1" || val = "yes"

/-- Accepted tokens for the dedicated verbose config query (also any
digit string). -/
def verboseAccept (val : String) : Bool :=
  val = "true" || val = "false" || val = "0" || val = "1" ||
    val = "yes" || val = "no" || val = "none" || isDigitStr val.data

/-- Truthy classification for verbose values: false only for
false/0/no/none. -/
def verboseToBool (val : String) : Bool :=
  !(val = "false" || val = "0" || val = "no" || val = "none")

/-- Apply collected flag pairs: a field is set only when exactly one
distinct boolean was observed (an ambiguous set is skipped). -/
def applyCollected (ags : List (String × AgentModel))
    (m : List (String × (Bool × Bool)))
    (setter : AgentModel → Bool → AgentModel) :
    List (String × AgentModel) :=
  m.foldl
    (fun acc e =>
      if (e.2.1 && !e.2.2) || (!e.2.1 && e.2.2) then
        aupdate acc e.1 (fun a => setter a e.2.1)
      else acc)
    ags

/-- The `_find_config_value_for_agent` helper: walk the agent→Config
link rows, and inside each linked Config node's recovered pair list
return the value paired with the target key. -/
def find_config_value_for_agent (cfgLinks : List PairRow)
    (agent_iri : String) (target : List Char)
    (m : List (List Char × List (List Char × List Char))) :
    Option (List Char) :=
  match cfgLinks with
  | [] => none
  | r :: rest =>
    if rowStr r.a = agent_iri then
      match alookup m (lastSeg '/' (lastSeg '#' (rowStr r.b).data)) with
      | some kvs =>
        match kvs.find? (fun kv => decide (kv.1 = target)) with
        | some kv => some kv.2
        | none => find_config_value_for_agent rest agent_iri target m
      | none => find_config_value_for_agent rest agent_iri target m
    else find_config_value_for_agent rest agent_iri target m

/-- Delegation half of the Strategy 1.5 per-agent body: fill a
still-unset allow_delegation from the recovered raw-text pairs
(`_found_deleg.lower() in ("true", "1", "yes")`). -/
def stage15Deleg (cfgLinks : List PairRow)
    (m : List (List Char × List (List Char × List Char)))
    (iri : String) (a : AgentModel) : AgentModel :=
  if a.allow_delegation = none then
    match find_config_value_for_agent cfgLinks iri
        ("allow_delegation".data) m with
    | some v =>
      let b := decide (lowerChars v ∈ ["true".data, "1".data, "yes".data])
      { a with allow_delegation := some b }
    | none => a
  else a

/-- Verbose half of the Strategy 1.5 per-agent body
(`val not in ("false", "0", "no", "none")`). -/
def stage15Verb (cfgLinks : List PairRow)
    (m : List (List Char × List (List Char × List Char)))
    (iri : String) (a : AgentModel) : AgentModel :=
  if a.verbose = none then
    match find_config_value_for_agent cfgLinks iri ("verbose".data) m with
    | some v =>
      let b := !(decide (lowerChars v ∈
        ["false".data, "0".data, "no".data, "none".data]))
      { a with verbose := some b }
    | none => a
  else a

/-- Per-agent body of Strategy 1.5: allow_delegation first, then
verbose, as in the source. -/
def stage15Update (cfgLinks : List PairRow)
    (m : List (List Char × List (List Char × List Char)))
    (iri : String) (a : AgentModel) : AgentModel :=
  stage15Verb cfgLinks m iri (stage15Deleg cfgLinks m iri a)

/-- Strategy 1.5: consult the Raw-Text Companion Parser for still-unset
allow_delegation / verbose flags (skipped when no raw text is
available). -/
def agentsStage15 (ags : List (String × AgentModel))
    (cfgLinks : List PairRow) (raw : List Char) :
    List (String × AgentModel) :=
  if raw.isEmpty then ags
  else
    ags.map
      (fun e =>
        (e.1, stage15Update cfgLinks (parse_config_kv_from_ttl raw) e.1 e.2))

/-- Join char lists with a separator. -/
def joinSep (sep : List Char) : List (List Char) → List Char
  | [] => []
  | [x] => x
  | x :: y :: rest => x ++ sep ++ joinSep sep (y :: rest)

/-- Embeds `" ".join(filter(None, [desc, comment, promptCtx,
promptInstr]))` over the `_s`-stripped fields. -/
def agentRowText (r : AgentTextRow) : String :=
  ⟨joinSep [' ']
    (([rowStr r.desc, rowStr r.comment, rowStr r.promptCtx,
      rowStr r.promptInstr].filter (fun s => ¬ s = "")).map String.data)⟩

/-- Delegation half of the Strategy 2 per-agent body. -/
def textDeleg (allText : String) (a : AgentModel) : AgentModel :=
  if a.allow_delegation = none then
    match parse_bool_from_text allText "allow_delegation" with
    | some b => { a with allow_delegation := some b }
    | none => a
  else a

/-- Verbose half of the Strategy 2 per-agent body. -/
def textVerb (allText : String) (a : AgentModel) : AgentModel :=
  if a.verbose = none then
    match parse_bool_from_text allText "verbose" with
    | some b => { a with verbose := some b }
    | none => a
  else a

/-- Per-agent body of Strategy 2: fill still-unset flags from the
text-pattern extraction over the row's joined text, allow_delegation
first then verbose, as in the source. -/
def textUpdate (allText : String) (a : AgentModel) : AgentModel :=
  textVerb allText (textDeleg allText a)

/-- Strategy 2: natural-language pattern extraction from the agent's
text fields, filling only still-unset flags; rows whose joined text is
blank are skipped. -/
def agentsStageText (ags : List (String × AgentModel))
    (rows : List AgentTextRow) : List (String × AgentModel) :=
  rows.foldl
    (fun acc r =>
      if pyStrip (agentRowText r) = "" then acc
      else aupdate acc (rowStr r.agent) (textUpdate (agentRowText r)))
    ags

/-- Final hard defaults of `_extract_agents`: role → "LLM Agent" if
empty, goal → role if empty, backstory → "You are a {role}." if
empty. -/
def finalDefaults (a : AgentModel) : AgentModel :=
  let role := if a.role = "" then "LLM Agent" else a.role
  let goal := if a.goal = "" then role else a.goal
  let backstory :=
    if a.backstory = "" then "You are a " ++ role ++ "." else a.backstory
  { a with role := role, goal := goal, backstory := backstory }

/-- The query row sets consumed by `_extract_agents`. -/
structure AgentQueryRows where
  agents : List AgentRow
  goals : List PairRow
  configs : List TripleRow
  backstories : List PairRow
  toolLinks : List PairRow
  llmLinks : List PairRow
  delegations : List PairRow
  verboses : List PairRow
  cfgLinks : List PairRow
  texts : List AgentTextRow
deriving DecidableEq, Repr

/-- The `_extract_agents` pipeline: primary properties, goal, config
fallback, backstory-from-prompt, tool links, language-model links,
dedicated delegation/verbose config queries (ambiguity-aware), raw-TTL
recovery, text-pattern extraction, final defaults. -/
def extract_agents (q : AgentQueryRows)
    (tools_map : List (String × ToolModel))
    (lm_map : List (String × LanguageModelModel)) (raw_ttl : List Char) :
    List (String × AgentModel) :=
  let a0 := agentsStagePrimary q.agents
  let a1 := agentsStageGoal a0 q.goals
  let a2 := agentsStageConfig a1 q.configs
  let a3 := agentsStageBackstory a2 q.backstories
  let a4 := agentsStageTools a3 q.toolLinks tools_map
  let a5 := agentsStageLLM a4 q.llmLinks lm_map
  let a6 := applyCollected a5 (collectBools a5 q.delegations delegAccept
    delegToBool) (fun a b => { a with allow_delegation := some b })
  let a7 := applyCollected a6 (collectBools a6 q.verboses verboseAccept
    verboseToBool) (fun a b => { a with verbose := some b })
  let a8 := agentsStage15 a7 q.cfgLinks raw_ttl
  let a9 := agentsStageText a8 q.texts
  a9.map (fun e => (e.1, finalDefaults e.2))

/-- A concrete query-row bundle for the agent-extraction witnesses: one
agent row with a role and no delegation/verbose source anywhere. -/
def sampleAgentQuery : AgentQueryRows :=
  AgentQueryRows.mk [AgentRow.mk "http://x#A1" "" "researcher" ""]
    [] [] [] [] [] [] [] [] []

/-- The agent record that `extract_agents` produces from
`sampleAgentQuery`. -/
def sampleAgentOut : AgentModel :=
  AgentModel.mk "http://x#A1" "a1" "" "researcher" "researcher"
    "You are a researcher." [] none none none

/-! ### Workflow ordering (`_extract_workflow` lines 901-920 and task
reordering, step 8 of `extract_crew_project`, lines 1016-1023) -/

/-- A `WORKFLOW_QUERY` row: associated task, optional explicit order,
and step type. -/
structure WorkflowRow where
  task : String
  stepOrder : Option Int
  stepType : String
deriving DecidableEq, Repr

/-- Embeds `{t.iri: t.var_name for t in tasks_map.values()}`. -/
def taskIriToVar (tasks : List (String × TaskModel)) :
    List (String × String) :=
  tasks.foldl (fun m e => aset m e.2.iri e.2.var_name) []

/-- Step-building loop of `_extract_workflow`: a missing explicit
order defaults to `len(steps) + 1`, one more than the number of steps
collected so far (`n`). -/
def buildStepsAux (ivmap : List (String × String)) :
    Nat → List WorkflowRow → List WorkflowStepModel
  | _, [] => []
  | n, r :: rest =>
    let task_iri := rowStr r.task
    let task_var :=
      match alookup ivmap task_iri with
      | some v => v
      | none => safeVar task_iri
    let order : Int :=
      match r.stepOrder with
      | some o => o
      | none => Int.ofNat n + 1
    WorkflowStepModel.mk order task_var
        ⟨lastSeg '#' (rowStr r.stepType).data⟩ ::
      buildStepsAux ivmap (n + 1) rest

/-- Stable insertion: the new element goes after every element whose
key is less than or equal, as Python's stable `sort` places it. -/
def insertByKey {α : Type} (key : α → Int) (x : α) : List α → List α
  | [] => [x]
  | y :: ys =>
    if key y ≤ key x then y :: insertByKey key x ys else x :: y :: ys

/-- Stable sort by integer key — extensionally equal to Python's
stable `list.sort(key=...)` / `sorted(key=...)`. -/
def stableSortByKey {α : Type} (key : α → Int) (l : List α) : List α :=
  l.foldl (fun acc x => insertByKey key x acc) []

/-- The `_extract_workflow` function: build steps in row order, then
sort stably by `step_order`. -/
def extract_workflow (rows : List WorkflowRow)
    (tasks : List (String × TaskModel)) : List WorkflowStepModel :=
  stableSortByKey (fun s => s.step_order)
    (buildStepsAux (taskIriToVar tasks) 0 rows)

/-- Embeds `{s.task_var_name: s.step_order for s in workflow_steps}`. -/
def stepOrderMap (steps : List WorkflowStepModel) : List (String × Int) :=
  steps.foldl (fun m s => aset m s.task_var_name s.step_order) []

/-- Step 8 of `extract_crew_project`: when workflow steps exist, tasks
are stably sorted by their step order, unreferenced tasks keyed 999;
otherwise extraction order is kept. -/
def reorderTasks (steps : List WorkflowStepModel) (tasks : List TaskModel) :
    List TaskModel :=
  if steps.isEmpty then tasks
  else
    stableSortByKey
      (fun t =>
        match alookup (stepOrderMap steps) t.var_name with
        | some o => o
        | none => 999)
      tasks

/-! ### Task-context resolution (`_resolve_task_context`,
extractor.py lines 875-898) -/

/-- Resource → producing-task var-name map; a later produces-row for
the same resource overwrites the earlier one (last writer wins). -/
def resolveProducers (producesRows : List PairRow)
    (tasks : List (String × TaskModel)) : List (String × String) :=
  producesRows.foldl
    (fun m r =>
      match alookup tasks (rowStr r.a) with
      | some t => aset m (rowStr r.b) t.var_name
      | none => m)
    []

/-- Body of the requires-loop: append the producer's identifier to the
consuming task's context unless it is the task itself or already
present. -/
def resolveStep (producerMap : List (String × String))
    (ts : List (String × TaskModel)) (r : PairRow) :
    List (String × TaskModel) :=
  match alookup ts (rowStr r.a), alookup producerMap (rowStr r.b) with
  | some _, some pv =>
    aupdate ts (rowStr r.a)
      (fun t =>
        if ¬ pv = t.var_name ∧ ¬ pv ∈ t.context_task_var_names then
          { t with context_task_var_names :=
              t.context_task_var_names ++ [pv] }
        else t)
  | _, _ => ts

/-- The `_resolve_task_context` function. -/
def resolve_task_context (producesRows requiresRows : List PairRow)
    (tasks : List (String × TaskModel)) : List (String × TaskModel) :=
  requiresRows.foldl (resolveStep (resolveProducers producesRows tasks))
    tasks

/-! ### Input-variable mining (`_extract_placeholders` lines 72-74,
`_extract_input_variables` lines 923-961) -/

/-- Match `\{(\w+)\}` at the head of the text, returning the captured
group and the rest. -/
def matchPH : List Char → Option (List Char × List Char)
  | [] => none
  | c :: rest =>
    if c = '{' then
      let run := rest.takeWhile isWordChar
      match rest.dropWhile isWordChar with
      | k :: r3 => if k = '}' ∧ ¬ run.isEmpty then some (run, r3) else none
      | [] => none
    else none

/-- All positions where the placeholder pattern matches. -/
def allMatchesPH : Nat → List Char → List (Nat × List Char × Nat)
  | _, [] => []
  | pos, c :: rest =>
    match matchPH (c :: rest) with
    | some (run, after) =>
      (pos, run, pos + ((c :: rest).length - after.length)) ::
        allMatchesPH (pos + 1) rest
    | none => allMatchesPH (pos + 1) rest

/-- Embeds `re.findall(r"\{(\w+)\}", text)`: `finditer` groups,
non-overlapping, left to right. -/
def findallPH (cs : List Char) : List (List Char) :=
  (keepNonOverlapping 0 (allMatchesPH 0 cs)).map (fun e => e.2)

/-- Embeds `list(dict.fromkeys(...))`: deduplicate keeping the first
occurrence, preserving order. -/
def dedupFirstAux (seen : List String) : List String → List String
  | [] => []
  | x :: rest =>
    if x ∈ seen then dedupFirstAux seen rest
    else x :: dedupFirstAux (x :: seen) rest

/-- The `_extract_placeholders` helper: `{placeholder}` names in first
occurrence order. -/
def extract_placeholders (text : String) : List String :=
  dedupFirstAux [] ((findallPH text.data).map (fun l => ⟨l⟩))

/-- Add newly discovered placeholder names with empty default
(`if var_name not in all_vars: all_vars[var_name] = ""`). -/
def addVars (m : List (String × String)) (names : List String) :
    List (String × String) :=
  names.foldl
    (fun m n =>
      match alookup m n with
      | some _ => m
      | none => m ++ [(n, "")])
    m

/-- Embeds `re.match(r"(\w+)\s*[:=]\s*(.+)", line)` plus the value
cleanup `m.group(2).strip().strip("'\"")`.  When only whitespace
follows the separator the regex backtracks to capture a single space,
which strips to the empty value. -/
def parseDefaultLine (line : List Char) : Option (String × String) :=
  let key := line.takeWhile isWordChar
  if key.isEmpty then none
  else
    match (line.dropWhile isWordChar).dropWhile isPySpace with
    | c :: r3 =>
      if c = ':' || c = '=' then
        let body := r3.dropWhile isPySpace
        if ¬ body.isEmpty then
          some (⟨key⟩,
            ⟨stripEnds (fun d => d = squote || d = dquote)
              (pyStripChars body)⟩)
        else if ¬ (r3.takeWhile isPySpace).isEmpty then
          some (⟨key⟩, "")
        else none
      else none
    | [] => none

/-- Embeds `line.strip().lstrip("-").strip()`. -/
def normalizeDefaultLine (line : List Char) : List Char :=
  pyStripChars ((pyStripChars line).dropWhile (fun c => c = '-'))

/-- The `_extract_input_variables` function: placeholders from task
descriptions, then from prompt input data, then defaults from
default-input text blocks — a default line never introduces a new
variable name. -/
def extract_input_variables (tasks : List (String × TaskModel))
    (promptRows : List String) (defaultRows : List String) :
    List InputVariableModel :=
  let v1 := tasks.foldl
    (fun m e => addVars m (extract_placeholders e.2.description)) []
  let v2 := promptRows.foldl
    (fun m txt => addVars m (extract_placeholders (rowStr txt))) v1
  let v3 := defaultRows.foldl
    (fun m descRaw =>
      (splitOnChar '\n' (rowStr descRaw).data).foldl
        (fun m line =>
          match parseDefaultLine (normalizeDefaultLine line) with
          | some kv =>
            match alookup m kv.1 with
            | some _ => aset m kv.1 kv.2
            | none => m
          | none => m)
        m)
    v2
  v3.map (fun e => InputVariableModel.mk e.1 e.2)

/-! ### Environment-variable extraction (`_extract_env_vars` lines
964-973; the key filter lives in `ENV_CONFIG_QUERY`, lines 374-382) -/

/-- The `FILTER(CONTAINS(LCASE(?key), "api_key") ||
CONTAINS(LCASE(?key), "env"))` condition of `ENV_CONFIG_QUERY`. -/
def envKeyLike (key : String) : Bool :=
  strContains (lowerStr key) "api_key" || strContains (lowerStr key) "env"

/-- Loop body of `_extract_env_vars`: skip a seen key, otherwise
append the entry and mark the key as seen. -/
def envStep (acc : List ConfigModel × List String) (r : PairRow) :
    List ConfigModel × List String :=
  let key := rowStr r.a
  if key ∈ acc.2 then acc
  else (acc.1 ++ [ConfigModel.mk key (rowStr r.b)], key :: acc.2)

/-- The `_extract_env_vars` function: one ConfigModel per first
occurrence of a key, later rows with a seen key dropped. -/
def extract_env_vars (rows : List PairRow) : List ConfigModel :=
  (rows.foldl envStep (([] : List ConfigModel), ([] : List String))).1

/-- Reference form of the env-var dedup loop (first occurrence kept),
used to state its properties. -/
def dedupRowsAux (seen : List String) : List PairRow → List ConfigModel
  | [] => []
  | r :: rest =>
    if rowStr r.a ∈ seen then dedupRowsAux seen rest
    else ConfigModel.mk (rowStr r.a) (rowStr r.b) ::
      dedupRowsAux (rowStr r.a :: seen) rest

/-- Concrete tasks for the workflow-ordering scenario. -/
def wfTaskA : TaskModel :=
  TaskModel.mk "http://x#TA" "task_a" "dA" "oA" "" [] none

/-- Task B of the workflow-ordering scenario. -/
def wfTaskB : TaskModel :=
  TaskModel.mk "http://x#TB" "task_b" "dB" "oB" "" [] none

/-- Task C of the workflow-ordering scenario. -/
def wfTaskC : TaskModel :=
  TaskModel.mk "http://x#TC" "task_c" "dC" "oC" "" [] none

/-- Task map of the workflow-ordering scenario. -/
def wfTasksMap : List (String × TaskModel) :=
  [("http://x#TA", wfTaskA), ("http://x#TB", wfTaskB),
    ("http://x#TC", wfTaskC)]

/-- Workflow rows with explicit orders 2, 1, 3 in traversal order,
referencing tasks A, B, C. -/
def wfRows : List WorkflowRow :=
  [WorkflowRow.mk "http://x#TA" (some 2)
      "http://www.w3id.org/agentic-ai/onto#WorkflowStep",
    WorkflowRow.mk "http://x#TB" (some 1)
      "http://www.w3id.org/agentic-ai/onto#WorkflowStep",
    WorkflowRow.mk "http://x#TC" (some 3)
      "http://www.w3id.org/agentic-ai/onto#WorkflowStep"]

/-- Tasks X, Y, Z for the context-resolution counterexample. -/
def ctxTaskX : TaskModel := TaskModel.mk "http://x#TX" "x" "dx" "ox" "" [] none

/-- Task Y of the context-resolution counterexample. -/
def ctxTaskY : TaskModel := TaskModel.mk "http://x#TY" "y" "dy" "oy" "" [] none

/-- Task Z of the context-resolution counterexample. -/
def ctxTaskZ : TaskModel := TaskModel.mk "http://x#TZ" "z" "dz" "oz" "" [] none

/-- Task map of the context-resolution counterexample. -/
def ctxTasks : List (String × TaskModel) :=
  [("http://x#TX", ctxTaskX), ("http://x#TY", ctxTaskY),
    ("http://x#TZ", ctxTaskZ)]

/-- Produces-rows of the counterexample: X and (later) Z both declare
producing resource R. -/
def ctxProduces : List PairRow :=
  [PairRow.mk "http://x#TX" "http://x#R", PairRow.mk "http://x#TZ" "http://x#R"]

/-- Requires-rows of the counterexample: Y requires resource R. -/
def ctxRequires : List PairRow := [PairRow.mk "http://x#TY" "http://x#R"]

/-! ## Theorems -/

theorem leadingBlock_append_self (l t : List Char) :
    leadingBlock l (l ++ t) = true := by
  induction l with
  | nil => rfl
  | cons c cs ih => simp [leadingBlock, ih]

theorem containsSub_of_tail (n : List Char) (c : Char) (h : List Char)
    (hc : containsSub n h = true) : containsSub n (c :: h) = true := by
  cases h with
  | nil => simp [containsSub] at hc ⊢; simp [hc]
  | cons d t => simp [containsSub] at hc ⊢; tauto

theorem containsSub_mid (pre n suf : List Char) :
    containsSub n (pre ++ n ++ suf) = true := by
  induction pre with
  | nil =>
    cases n with
    | nil => cases suf <;> simp [containsSub, leadingBlock]
    | cons c cs =>
      simp only [List.nil_append, List.cons_append, containsSub]
      have : leadingBlock (c :: cs) (c :: (cs ++ suf)) = true := by
        simpa [leadingBlock] using leadingBlock_append_self cs suf
      simp [this]
  | cons c cs ih =>
    simpa using containsSub_of_tail n c _ (by simpa using ih)

/-- Helper `safeVarFinish` always yields a nonempty string whose first
character is not a digit. -/
theorem safeVarFinish_head (l : List Char) :
    ∃ c cs, (safeVarFinish l).data = c :: cs ∧ c.isDigit = false := by
  match l with
  | [] => exact ⟨'u', ['n', 'n', 'a', 'm', 'e', 'd'], rfl, by decide⟩
  | c :: cs =>
    by_cases h : c.isDigit
    · exact ⟨'_', c :: cs, by simp [safeVarFinish, h], by decide⟩
    · exact ⟨c, cs, by simp [safeVarFinish, h], by simpa using h⟩

theorem alookup_aupdate_self {κ α : Type} [DecidableEq κ]
    (m : List (κ × α)) (k : κ) (f : α → α) :
    alookup (aupdate m k f) k = (alookup m k).map f := by
  induction m with
  | nil => rfl
  | cons e rest ih =>
    by_cases h : e.1 = k
    · simp [alookup, aupdate, h]
    · simpa [alookup, aupdate, h] using ih

theorem alookup_aupdate_ne {κ α : Type} [DecidableEq κ]
    (m : List (κ × α)) (k k' : κ) (f : α → α) (h : k' ≠ k) :
    alookup (aupdate m k f) k' = alookup m k' := by
  induction m with
  | nil => rfl
  | cons e rest ih =>
    by_cases he : e.1 = k
    · simpa [alookup, aupdate, he, Ne.symm h] using ih
    · by_cases he' : e.1 = k'
      · simp [alookup, aupdate, he, he', h]
      · simpa [alookup, aupdate, he, he'] using ih

theorem alookup_append {κ α : Type} [DecidableEq κ]
    (m₁ m₂ : List (κ × α)) (k : κ) :
    alookup (m₁ ++ m₂) k =
      match alookup m₁ k with
      | some v => some v
      | none => alookup m₂ k := by
  induction m₁ with
  | nil => simp [alookup]
  | cons e rest ih =>
    by_cases h : e.1 = k
    · simp [alookup, h]
    · simpa [alookup, h] using ih

theorem alookup_addKV_self (res : List (List Char × List (List Char × List Char)))
    (o : List Char) (kv : List Char × List Char) :
    alookup (addKV res o kv) o = some ((alookup res o).getD [] ++ [kv]) := by
  unfold addKV
  cases h : alookup res o with
  | some l => simp [h, alookup_aupdate_self]
  | none => simp [h, alookup_append, alookup]

theorem alookup_addKV_ne (res : List (List Char × List (List Char × List Char)))
    (o n : List Char) (kv : List Char × List Char) (h : n ≠ o) :
    alookup (addKV res o kv) n = alookup res n := by
  unfold addKV
  cases ho : alookup res o with
  | some l => simp [alookup_aupdate_ne _ _ _ _ h]
  | none =>
    rw [alookup_append]
    cases hn : alookup res n with
    | some v => simp
    | none => simp [alookup, Ne.symm h]

theorem selKV_nil_cfgs (n : List Char)
    (kvs : List (Nat × (List Char × List Char))) : selKV [] n kvs = [] := by
  simp [selKV, nearestPrecedingCfg]

/-- The per-pair fold of `_parse_config_kv_from_ttl` groups the pairs
by owner, preserving text order within each owner. -/
theorem configKV_foldl_grouping (cfgs : List (Nat × List Char))
    (n : List Char) (hn : ¬ n.isEmpty = true) :
    ∀ (kvs : List (Nat × (List Char × List Char)))
      (res : List (List Char × List (List Char × List Char))),
      alookup (kvs.foldl (configKVStep cfgs) res) n =
        optAppend (alookup res n) (selKV cfgs n kvs) := by
  intro kvs
  induction kvs with
  | nil =>
    intro res
    cases h : alookup res n with
    | some l => simp [selKV, optAppend, h]
    | none => simp [selKV, optAppend, h]
  | cons hd tl ih =>
    intro res
    rw [List.foldl_cons, ih]
    cases hnear : nearestPrecedingCfg cfgs hd.1 with
    | none => simp [configKVStep, hnear, selKV, List.filter]
    | some o =>
      by_cases heq : o = n
      · subst heq
        have hsel : selKV cfgs o (hd :: tl) = hd.2 :: selKV cfgs o tl := by
          simp [selKV, List.filter, hnear]
        rw [hsel]
        have hstep : configKVStep cfgs res hd = addKV res o hd.2 := by
          simp [configKVStep, hnear, hn]
        rw [hstep, alookup_addKV_self]
        cases hres : alookup res o with
        | some l => simp [optAppend, hres]
        | none => simp [optAppend, hres]
      · have hsel : selKV cfgs n (hd :: tl) = selKV cfgs n tl := by
          simp [selKV, List.filter, hnear, heq]
        rw [hsel]
        by_cases hemp : o.isEmpty
        · simp [configKVStep, hnear, hemp]
        · have hstep : configKVStep cfgs res hd = addKV res o hd.2 := by
            simp [configKVStep, hnear, hemp]
          rw [hstep, alookup_addKV_ne _ _ _ _ (fun h => heq h.symm)]

/-- C1: for every raw document, the pairs that
`_parse_config_kv_from_ttl` reports for a Config node named `n` are
exactly the key/value matches whose nearest preceding Config
declaration is `n`, in text order — in particular a node whose owned
pairs are `role="Analyst"`, `goal="Find trends"` (in that order) maps
to `[("role","Analyst"), ("goal","Find trends")]`, never the
cross-pairing; and owner resolution picks the nearest preceding
declaration by text position. -/
theorem C1_raw_text_pairing :
    (∀ (raw n : List Char), ¬ n.isEmpty = true →
      selKV (scanConfigDecls raw) n (scanKVDecls raw) =
        [("role".data, "Analyst".data), ("goal".data, "Find trends".data)] →
      alookup (parse_config_kv_from_ttl raw) n =
        some [("role".data, "Analyst".data),
          ("goal".data, "Find trends".data)]) ∧
    (∀ (q₁ q₂ : Nat) (n₁ n₂ : List Char) (p : Nat), q₁ ≤ q₂ →
      nearestPrecedingCfg [(q₁, n₁), (q₂, n₂)] p =
        if q₂ ≤ p then some n₂ else if q₁ ≤ p then some n₁ else none) := by
  constructor
  · intro raw n hn hsel
    by_cases hc : (scanConfigDecls raw).isEmpty
    · rw [List.isEmpty_iff] at hc
      rw [hc, selKV_nil_cfgs] at hsel
      cases hsel
    · have hrw : parse_config_kv_from_ttl raw =
          (scanKVDecls raw).foldl (configKVStep (scanConfigDecls raw)) [] := by
        unfold parse_config_kv_from_ttl
        simp [hc]
      rw [hrw, configKV_foldl_grouping _ _ hn, hsel]
      simp [optAppend, alookup]
  · intro q₁ q₂ n₁ n₂ p h12
    by_cases h2 : q₂ ≤ p
    · simp [nearestPrecedingCfg, List.find?, h2]
    · by_cases h1 : q₁ ≤ p
      · simp [nearestPrecedingCfg, List.find?, h1, h2]
      · simp [nearestPrecedingCfg, List.find?, h1, h2]

theorem C1_raw_text_pairing_witness :
    (¬ ("cfg1".data).isEmpty = true ∧
      selKV (scanConfigDecls sampleTTL) "cfg1".data (scanKVDecls sampleTTL) =
        [("role".data, "Analyst".data), ("goal".data, "Find trends".data)]) ∧
    alookup (parse_config_kv_from_ttl sampleTTL) "cfg1".data =
      some [("role".data, "Analyst".data), ("goal".data, "Find trends".data)] ∧
    (0 : Nat) ≤ 5 ∧
    nearestPrecedingCfg [(0, "c1".data), (5, "c2".data)] 7 = some "c2".data := by
  refine ⟨⟨by decide, by decide⟩, ?_, by decide, ?_⟩
  · exact C1_raw_text_pairing.1 sampleTTL "cfg1".data (by decide) (by decide)
  · have h := C1_raw_text_pairing.2 0 5 "c1".data "c2".data 7 (by decide)
    simpa using h

/-- C4 counterexample: the claim asserts `"123Tool"` normalizes to
`"_123tool"`, but the first camel-case substitution of `_safe_var` also
fires at a digit→uppercase boundary (its lookbehind class is
`[a-z0-9]`), so the code produces `"_123_tool"`. -/
theorem C4_counterexample :
    safeVar "123Tool" = "_123_tool" ∧ safeVar "123Tool" ≠ "_123tool" := by
  constructor
  · rfl
  · decide

/-- C4 (amended): `_safe_var` splits camel-case runs at
lowercase-or-digit→uppercase and at uppercase→uppercase-lowercase
boundaries, replaces non-alphanumeric runs by a single underscore,
strips edge underscores, lowercases, prefixes an underscore when the
result starts with a digit and falls back to the placeholder
`"unnamed"`; `"SeniorEngineerAgent"` normalizes to
`"senior_engineer_agent"` and `"123Tool"` to `"_123_tool"`, and for
every input the result is nonempty and never starts with a digit. -/
theorem C4_safeVar_normalization :
    safeVar "SeniorEngineerAgent" = "senior_engineer_agent" ∧
    safeVar "http://www.w3id.org/agentic-ai/onto#SeniorEngineerAgent" =
      "senior_engineer_agent" ∧
    safeVar "123Tool" = "_123_tool" ∧
    safeVar "" = "unnamed" ∧
    ∀ s : String, ∃ c cs, (safeVar s).data = c :: cs ∧ c.isDigit = false := by
  refine ⟨rfl, rfl, rfl, rfl, ?_⟩
  intro s
  unfold safeVar
  split
  · exact ⟨'u', ['n', 'n', 'a', 'm', 'e', 'd'], rfl, by decide⟩
  · exact safeVarFinish_head _

/-- C7: the Graph Loader tries the primary serialization syntax; on
failure it tries the one alternate syntax; if both fail it raises the
parse error (the spec's `GraphParseError`) whose message carries the
original low-level parser message and the file path; and a returned
graph always comes from one of the two complete parse attempts —
parse success is all-or-nothing, no partial graph is returned. -/
theorem C7_graph_loader :
    (∀ (γ : Type) (g : γ) (xml : Except String γ) (path : String),
      parse_kg_load (Except.ok g) xml path = Except.ok g) ∧
    (∀ (γ : Type) (e : String) (g : γ) (path : String),
      parse_kg_load (Except.error e) (Except.ok g) path = Except.ok g) ∧
    (∀ (γ : Type) (e eAlt : String) (path : String),
      parse_kg_load (Except.error e : Except String γ) (Except.error eAlt)
          path = Except.error (parseErrorMessage path e)) ∧
    (∀ (path e : String),
      strContains (parseErrorMessage path e) path = true ∧
      strContains (parseErrorMessage path e) e = true) ∧
    (∀ (γ : Type) (turtle xml : Except String γ) (path : String) (g : γ),
      parse_kg_load turtle xml path = Except.ok g →
      turtle = Except.ok g ∨ xml = Except.ok g) := by
  refine ⟨fun γ g xml path => rfl, fun γ e g path => rfl,
    fun γ e eAlt path => rfl, ?_, ?_⟩
  · intro path e
    constructor
    · have h := containsSub_mid
        ("Failed to parse RDF file. Please check TTL syntax in ").data
        path.data ((". Error: " ++ e)).data
      simpa [strContains, parseErrorMessage, List.append_assoc] using h
    · have h := containsSub_mid
        ("Failed to parse RDF file. Please check TTL syntax in " ++ path ++
          ". Error: ").data e.data []
      simpa [strContains, parseErrorMessage, List.append_assoc] using h
  · intro γ turtle xml path g h
    cases turtle with
    | ok t => left; simpa [parse_kg_load] using h
    | error e =>
      cases xml with
      | ok x => right; simpa [parse_kg_load] using h
      | error eAlt => simp [parse_kg_load] at h

theorem C7_graph_loader_witness :
    parse_kg_load (Except.ok (0 : Nat)) (Except.error "alt") "kg.ttl" =
      Except.ok 0 ∧
    parse_kg_load (Except.error "boom" : Except String Nat)
      (Except.error "alt") "kg.ttl" =
      Except.error (parseErrorMessage "kg.ttl" "boom") ∧
    ((Except.ok 0 : Except String Nat) = Except.ok 0 ∨
      (Except.error "alt" : Except String Nat) = Except.ok 0) := by
  refine ⟨C7_graph_loader.1 Nat 0 (Except.error "alt") "kg.ttl",
    C7_graph_loader.2.2.1 Nat "boom" "alt" "kg.ttl",
    C7_graph_loader.2.2.2.2 Nat (Except.ok 0) (Except.error "alt") "kg.ttl" 0
      rfl⟩

theorem foldl_teamProcessStep_true (l : List String)
    (acc : ProcessType × Bool) (h : acc.2 = true) :
    (List.foldl teamProcessStep acc l).2 = true := by
  induction l generalizing acc with
  | nil => simpa using h
  | cons v rest ih =>
    rw [List.foldl_cons]
    apply ih
    unfold teamProcessStep
    dsimp only
    split
    · rfl
    · split
      · rfl
      · exact h

theorem foldl_teamProcessStep_false (l : List String)
    (acc : ProcessType × Bool)
    (h : (List.foldl teamProcessStep acc l).2 = false) :
    List.foldl teamProcessStep acc l = acc := by
  induction l generalizing acc with
  | nil => rfl
  | cons v rest ih =>
    rw [List.foldl_cons] at h ⊢
    by_cases h1 : strContains (lowerStr (rowStr v)) "hierarchical" = true
    · have hs : teamProcessStep acc v = (ProcessType.HIERARCHICAL, true) := by
        unfold teamProcessStep
        simp [h1]
      rw [hs] at h
      have ht := foldl_teamProcessStep_true rest
        (ProcessType.HIERARCHICAL, true) rfl
      simp [ht] at h
    · by_cases h2 : strContains (lowerStr (rowStr v)) "sequential" = true
      · have hs : teamProcessStep acc v = (ProcessType.SEQUENTIAL, true) := by
          unfold teamProcessStep
          simp [h1, h2]
        rw [hs] at h
        have ht := foldl_teamProcessStep_true rest
          (ProcessType.SEQUENTIAL, true) rfl
        simp [ht] at h
      · have hs : teamProcessStep acc v = acc := by
          unfold teamProcessStep
          simp [h1, h2]
        rw [hs] at h ⊢
        exact ih acc h

theorem strategy1_undetected (pr : List String)
    (h : (teamProcessStrategy1 pr).2 = false) :
    teamProcessStrategy1 pr = (ProcessType.SEQUENTIAL, false) :=
  foldl_teamProcessStep_false pr (ProcessType.SEQUENTIAL, false) h

theorem infer_hier_iff (t : String) :
    infer_process_from_text t = some ProcessType.HIERARCHICAL ↔
      strContains (lowerStr t) "hierarchical" = true := by
  constructor
  · intro h
    by_cases ht : t = ""
    · subst ht
      simp [infer_process_from_text] at h
    · unfold infer_process_from_text at h
      by_cases hc : strContains (lowerStr t) "hierarchical" = true
      · exact hc
      · by_cases hs : strContains (lowerStr t) "sequential" = true <;>
          simp [ht, hc, hs] at h
  · intro h
    have ht : ¬ t = "" := by
      intro he
      subst he
      exact absurd h (by decide)
    unfold infer_process_from_text
    simp [ht, h]

theorem infer_seq_of (t : String)
    (hh : strContains (lowerStr t) "hierarchical" = false)
    (hs : strContains (lowerStr t) "sequential" = true) :
    infer_process_from_text t = some ProcessType.SEQUENTIAL := by
  have ht : ¬ t = "" := by
    intro he
    subst he
    exact absurd hs (by decide)
  unfold infer_process_from_text
  simp [ht, hh, hs]

theorem infer_none_of (t : String)
    (hh : strContains (lowerStr t) "hierarchical" = false)
    (hs : strContains (lowerStr t) "sequential" = false) :
    infer_process_from_text t = none := by
  by_cases ht : t = ""
  · subst ht
    rfl
  · unfold infer_process_from_text
    simp [ht, hh, hs]

theorem scanFields_hier (fields : List String) (acc : ProcessType × Bool)
    (h : ∃ f ∈ fields, strContains (lowerStr f) "hierarchical" = true) :
    scanFields fields acc = (ProcessType.HIERARCHICAL, true) := by
  induction fields generalizing acc with
  | nil => simp at h
  | cons f rest ih =>
    rcases h with ⟨g, hg, hcon⟩
    rcases List.mem_cons.mp hg with hgf | hgr
    · subst hgf
      have : infer_process_from_text g = some ProcessType.HIERARCHICAL :=
        (infer_hier_iff g).mpr hcon
      simp [scanFields, this]
    · cases hif : infer_process_from_text f with
      | none => simpa [scanFields, hif] using ih acc ⟨g, hgr, hcon⟩
      | some v =>
        cases v with
        | HIERARCHICAL => simp [scanFields, hif]
        | SEQUENTIAL =>
          simpa [scanFields, hif] using
            ih (ProcessType.SEQUENTIAL, true) ⟨g, hgr, hcon⟩

theorem scanFields_ne_hier (fields : List String) (acc : ProcessType × Bool)
    (hno : ∀ f ∈ fields, strContains (lowerStr f) "hierarchical" = false)
    (hacc : ¬ acc.1 = ProcessType.HIERARCHICAL) :
    ¬ (scanFields fields acc).1 = ProcessType.HIERARCHICAL := by
  induction fields generalizing acc with
  | nil => simpa [scanFields] using hacc
  | cons f rest ih =>
    cases hif : infer_process_from_text f with
    | none =>
      simpa [scanFields, hif] using
        ih acc (fun g hg => hno g (List.mem_cons_of_mem f hg)) hacc
    | some v =>
      cases v with
      | HIERARCHICAL =>
        have := (infer_hier_iff f).mp hif
        have hf := hno f (List.mem_cons_self f rest)
        rw [hf] at this
        cases this
      | SEQUENTIAL =>
        simpa [scanFields, hif] using
          ih (ProcessType.SEQUENTIAL, true)
            (fun g hg => hno g (List.mem_cons_of_mem f hg)) (by simp)

theorem scanFields_allnone (fields : List String) (acc : ProcessType × Bool)
    (h : ∀ f ∈ fields, infer_process_from_text f = none) :
    scanFields fields acc = acc := by
  induction fields generalizing acc with
  | nil => rfl
  | cons f rest ih =>
    have hf := h f (List.mem_cons_self f rest)
    simpa [scanFields, hf] using
      ih acc (fun g hg => h g (List.mem_cons_of_mem f hg))

theorem scanWPRows_hier (wr : List WPTextRow) (acc : ProcessType × Bool)
    (hacc : ¬ acc.1 = ProcessType.HIERARCHICAL)
    (h : ∃ r ∈ wr, ∃ f ∈ wpFieldList r,
      strContains (lowerStr f) "hierarchical" = true) :
    scanWPRows wr acc = (ProcessType.HIERARCHICAL, true) := by
  induction wr generalizing acc with
  | nil => simp at h
  | cons r rest ih =>
    by_cases hr : ∃ f ∈ wpFieldList r,
        strContains (lowerStr f) "hierarchical" = true
    · have hsf := scanFields_hier (wpFieldList r) acc hr
      simp [scanWPRows, hsf]
    · rcases h with ⟨g, hg, hgf⟩
      rcases List.mem_cons.mp hg with hgr | hgrest
      · exact absurd (hgr ▸ hgf) (by simpa [hgr] using hr)
      · push_neg at hr
        have hne := scanFields_ne_hier (wpFieldList r) acc
          (fun f hf => by simpa using hr f hf) hacc
        have hcond : ((scanFields (wpFieldList r) acc).2 &&
            decide ((scanFields (wpFieldList r) acc).1 =
              ProcessType.HIERARCHICAL)) = false := by
          simp [hne]
        rw [scanWPRows, if_neg (by simp [hcond])]
        exact ih _ hne ⟨g, hgrest, hgf⟩

theorem scanWPRows_skip (wr : List WPTextRow) (acc : ProcessType × Bool)
    (hall : ∀ r ∈ wr, ∀ f ∈ wpFieldList r, infer_process_from_text f = none)
    (hacc : acc.2 = false) :
    scanWPRows wr acc = acc := by
  induction wr generalizing acc with
  | nil => rfl
  | cons r rest ih =>
    have hsf := scanFields_allnone (wpFieldList r) acc
      (hall r (List.mem_cons_self r rest))
    rw [scanWPRows, hsf, if_neg (by simp [hacc])]
    exact ih acc (fun g hg => hall g (List.mem_cons_of_mem r hg)) hacc

theorem scanTeamDescRows_skip (tr : List TeamDescRow)
    (acc : ProcessType × Bool)
    (hall : ∀ r ∈ tr, infer_process_from_text (rowStr r.desc) = none ∧
      infer_process_from_text (rowStr r.comment) = none) :
    scanTeamDescRows tr acc = acc := by
  induction tr generalizing acc with
  | nil => rfl
  | cons r rest ih =>
    have hr := hall r (List.mem_cons_self r rest)
    simp only [scanTeamDescRows, hr.1, hr.2]
    exact ih acc (fun g hg => hall g (List.mem_cons_of_mem r hg))

/-- C8: project extraction resolves the sequencing strategy by trying,
in order, (a) the explicit "process" config key, (b) the
WorkflowPattern texts where HIERARCHICAL wins whenever the substring
"hierarchical" appears anywhere (the scan stops on it and is never
stopped by "sequential"), and (c) the Team description/comment texts
with the same per-text substring rule (hierarchical checked before
sequential); with no signal anywhere the result is the default
SEQUENTIAL. -/
theorem C8_process_resolution :
    (∀ (teamRows : List (String × String)) (pr : List String)
      (wr : List WPTextRow) (tr : List TeamDescRow),
      (extract_team teamRows pr wr tr).2.2 = extract_team_process pr wr tr) ∧
    (∀ (pr : List String) (wr : List WPTextRow) (tr : List TeamDescRow),
      (teamProcessStrategy1 pr).2 = true →
      extract_team_process pr wr tr = (teamProcessStrategy1 pr).1) ∧
    (∀ t : String,
      (strContains (lowerStr t) "hierarchical" = true →
        infer_process_from_text t = some ProcessType.HIERARCHICAL) ∧
      (strContains (lowerStr t) "hierarchical" = false →
        strContains (lowerStr t) "sequential" = true →
        infer_process_from_text t = some ProcessType.SEQUENTIAL) ∧
      (strContains (lowerStr t) "hierarchical" = false →
        strContains (lowerStr t) "sequential" = false →
        infer_process_from_text t = none)) ∧
    (∀ (pr : List String) (wr : List WPTextRow) (tr : List TeamDescRow),
      (teamProcessStrategy1 pr).2 = false →
      (∃ r ∈ wr, ∃ f ∈ wpFieldList r,
        strContains (lowerStr f) "hierarchical" = true) →
      extract_team_process pr wr tr = ProcessType.HIERARCHICAL) ∧
    (∀ (pr : List String) (wr : List WPTextRow) (tr : List TeamDescRow),
      (teamProcessStrategy1 pr).2 = false →
      (∀ r ∈ wr, ∀ f ∈ wpFieldList r, infer_process_from_text f = none) →
      extract_team_process pr wr tr =
        (scanTeamDescRows tr (ProcessType.SEQUENTIAL, false)).1) ∧
    (∀ (pr : List String) (wr : List WPTextRow) (tr : List TeamDescRow),
      (teamProcessStrategy1 pr).2 = false →
      (∀ r ∈ wr, ∀ f ∈ wpFieldList r, infer_process_from_text f = none) →
      (∀ r ∈ tr, infer_process_from_text (rowStr r.desc) = none ∧
        infer_process_from_text (rowStr r.comment) = none) →
      extract_team_process pr wr tr = ProcessType.SEQUENTIAL) := by
  refine ⟨?_, ?_, ?_, ?_, ?_, ?_⟩
  · intro teamRows pr wr tr
    rfl
  · intro pr wr tr h
    simp [extract_team_process, h]
  · intro t
    exact ⟨fun h => (infer_hier_iff t).mpr h, infer_seq_of t, infer_none_of t⟩
  · intro pr wr tr h1 hex
    have ha1 := strategy1_undetected pr h1
    have h2 : scanWPRows wr (ProcessType.SEQUENTIAL, false) =
        (ProcessType.HIERARCHICAL, true) :=
      scanWPRows_hier wr _ (by simp) hex
    simp [extract_team_process, ha1, h2]
  · intro pr wr tr h1 hall
    have ha1 := strategy1_undetected pr h1
    have h2 : scanWPRows wr (ProcessType.SEQUENTIAL, false) =
        (ProcessType.SEQUENTIAL, false) :=
      scanWPRows_skip wr _ hall rfl
    simp [extract_team_process, ha1, h2]
  · intro pr wr tr h1 hall hdesc
    have ha1 := strategy1_undetected pr h1
    have h2 : scanWPRows wr (ProcessType.SEQUENTIAL, false) =
        (ProcessType.SEQUENTIAL, false) :=
      scanWPRows_skip wr _ hall rfl
    have h3 : scanTeamDescRows tr (ProcessType.SEQUENTIAL, false) =
        (ProcessType.SEQUENTIAL, false) :=
      scanTeamDescRows_skip tr _ hdesc
    simp [extract_team_process, ha1, h2, h3]

theorem C8_process_resolution_witness :
    (teamProcessStrategy1 []).2 = false ∧
    extract_team_process []
      [WPTextRow.mk "Hierarchical delegation pattern" "" "" ""] [] =
      ProcessType.HIERARCHICAL ∧
    extract_team_process [] [] [] = ProcessType.SEQUENTIAL ∧
    extract_team_process ["hierarchical"] [] [] =
      (teamProcessStrategy1 ["hierarchical"]).1 := by
  refine ⟨by decide, ?_, ?_, ?_⟩
  · exact C8_process_resolution.2.2.2.1 []
      [WPTextRow.mk "Hierarchical delegation pattern" "" "" ""] []
      (by decide) (by decide)
  · exact C8_process_resolution.2.2.2.2.2 [] [] [] (by decide)
      (by decide) (by decide)
  · exact C8_process_resolution.2.1 ["hierarchical"] [] [] (by decide)

theorem alookup_eq_none_iff {κ α : Type} [DecidableEq κ]
    (m : List (κ × α)) (k : κ) :
    alookup m k = none ↔ ∀ e ∈ m, ¬ e.1 = k := by
  induction m with
  | nil => simp [alookup]
  | cons e rest ih =>
    by_cases he : e.1 = k
    · simp [alookup, he]
    · simp [alookup, he, ih]

theorem alookup_aset_ne {κ α : Type} [DecidableEq κ] (m : List (κ × α))
    (k k' : κ) (v : α) (h : ¬ k' = k) :
    alookup (aset m k v) k' = alookup m k' := by
  unfold aset
  cases hm : alookup m k with
  | some w => exact alookup_aupdate_ne m k k' _ h
  | none =>
    rw [alookup_append]
    cases hk : alookup m k' with
    | some w => simp
    | none => simp [alookup, Ne.symm h]

theorem alookup_aupdate_proj {κ α β : Type} [DecidableEq κ]
    (l : List (κ × α)) (k k' : κ) (f : α → α) (proj : α → β)
    (hf : ∀ a, proj (f a) = proj a) :
    (alookup (aupdate l k f) k').map proj = (alookup l k').map proj := by
  by_cases h : k' = k
  · subst h
    rw [alookup_aupdate_self]
    cases alookup l k' with
    | none => rfl
    | some a => simp [hf]
  · rw [alookup_aupdate_ne _ _ _ _ h]

theorem alookup_foldl_proj {κ α ρ β : Type} [DecidableEq κ]
    (proj : α → β) (step : List (κ × α) → ρ → List (κ × α))
    (hstep : ∀ acc r k,
      (alookup (step acc r) k).map proj = (alookup acc k).map proj)
    (rows : List ρ) :
    ∀ (ags : List (κ × α)) (k : κ),
      (alookup (rows.foldl step ags) k).map proj =
        (alookup ags k).map proj := by
  induction rows with
  | nil => intro ags k; rfl
  | cons r rest ih =>
    intro ags k
    rw [List.foldl_cons, ih, hstep]

theorem alookup_keyed_map {κ α β : Type} [DecidableEq κ]
    (l : List (κ × α)) (f : κ → α → β) (k : κ) :
    alookup (l.map (fun e => (e.1, f e.1 e.2))) k =
      (alookup l k).map (f k) := by
  induction l with
  | nil => rfl
  | cons e rest ih =>
    by_cases he : e.1 = k
    · simp [alookup, he]
    · simp [alookup, he, ih]

theorem alookup_map_snd {κ α β : Type} [DecidableEq κ]
    (l : List (κ × α)) (g : α → β) (k : κ) :
    alookup (l.map (fun e => (e.1, g e.2))) k = (alookup l k).map g := by
  induction l with
  | nil => rfl
  | cons e rest ih =>
    by_cases he : e.1 = k
    · simp [alookup, he]
    · simp [alookup, he, ih]

theorem agentsStageGoal_proj {β : Type} (proj : AgentModel → β)
    (hkeep : ∀ v a, proj (if a.goal = "" then { a with goal := v } else a) =
      proj a) (ags : List (String × AgentModel)) (rows : List PairRow)
    (k : String) :
    (alookup (agentsStageGoal ags rows) k).map proj =
      (alookup ags k).map proj := by
  unfold agentsStageGoal
  exact alookup_foldl_proj proj _
    (fun acc r k' => alookup_aupdate_proj _ _ _ _ proj (hkeep (rowStr r.b)))
    rows ags k

theorem agentsStageConfig_proj {β : Type} (proj : AgentModel → β)
    (ags : List (String × AgentModel)) (rows : List TripleRow)
    (k : String)
    (hgoal : ∀ v a, proj { a with goal := v } = proj a)
    (hback : ∀ v a, proj { a with backstory := v } = proj a)
    (hrole : ∀ v a, proj { a with role := v } = proj a) :
    (alookup (agentsStageConfig ags rows) k).map proj =
      (alookup ags k).map proj := by
  unfold agentsStageConfig
  refine alookup_foldl_proj proj _ ?_ rows ags k
  intro acc r k'
  refine alookup_aupdate_proj _ _ _ _ proj ?_
  intro a
  dsimp only
  split
  · exact hgoal _ a
  · split
    · exact hback _ a
    · split
      · exact hrole _ a
      · rfl

theorem agentsStageBackstory_proj {β : Type} (proj : AgentModel → β)
    (hkeep : ∀ v a,
      proj (if a.backstory = "" then { a with backstory := v } else a) =
        proj a)
    (ags : List (String × AgentModel)) (rows : List PairRow) (k : String) :
    (alookup (agentsStageBackstory ags rows) k).map proj =
      (alookup ags k).map proj := by
  unfold agentsStageBackstory
  exact alookup_foldl_proj proj _
    (fun acc r k' => alookup_aupdate_proj _ _ _ _ proj (hkeep (rowStr r.b)))
    rows ags k

theorem agentsStageTools_proj {β : Type} (proj : AgentModel → β)
    (hkeep : ∀ v a, proj { a with tool_var_names := v } = proj a)
    (ags : List (String × AgentModel)) (rows : List PairRow)
    (tools_map : List (String × ToolModel)) (k : String) :
    (alookup (agentsStageTools ags rows tools_map) k).map proj =
      (alookup ags k).map proj := by
  unfold agentsStageTools
  refine alookup_foldl_proj proj _ ?_ rows ags k
  intro acc r k'
  dsimp only
  cases alookup tools_map (rowStr r.b) with
  | none => rfl
  | some t =>
    refine alookup_aupdate_proj _ _ _ _ proj ?_
    intro a
    split
    · rfl
    · exact hkeep _ a

theorem agentsStageLLM_proj {β : Type} (proj : AgentModel → β)
    (hkeep : ∀ v a, proj { a with llm := v } = proj a)
    (ags : List (String × AgentModel)) (rows : List PairRow)
    (lm_map : List (String × LanguageModelModel)) (k : String) :
    (alookup (agentsStageLLM ags rows lm_map) k).map proj =
      (alookup ags k).map proj := by
  unfold agentsStageLLM
  refine alookup_foldl_proj proj _ ?_ rows ags k
  intro acc r k'
  dsimp only
  cases alookup lm_map (rowStr r.b) with
  | none => rfl
  | some lm =>
    exact alookup_aupdate_proj _ _ _ _ proj (fun a => hkeep _ a)

theorem applyCollected_proj {β : Type} (proj : AgentModel → β)
    (setter : AgentModel → Bool → AgentModel)
    (hset : ∀ a b, proj (setter a b) = proj a)
    (ags : List (String × AgentModel))
    (m : List (String × (Bool × Bool))) (k : String) :
    (alookup (applyCollected ags m setter) k).map proj =
      (alookup ags k).map proj := by
  unfold applyCollected
  refine alookup_foldl_proj proj _ ?_ m ags k
  intro acc e k'
  dsimp only
  split
  · exact alookup_aupdate_proj _ _ _ _ proj (fun a => hset a _)
  · rfl

theorem applyCollected_nokey (ags : List (String × AgentModel))
    (m : List (String × (Bool × Bool)))
    (setter : AgentModel → Bool → AgentModel) (k : String)
    (hm : ∀ e ∈ m, ¬ e.1 = k) :
    alookup (applyCollected ags m setter) k = alookup ags k := by
  induction m generalizing ags with
  | nil => rfl
  | cons e rest ih =>
    have he : ¬ e.1 = k := hm e (List.mem_cons_self e rest)
    have hrest : ∀ x ∈ rest, ¬ x.1 = k :=
      fun x hx => hm x (List.mem_cons_of_mem e hx)
    show alookup (applyCollected
      (if (e.2.1 && !e.2.2) || (!e.2.1 && e.2.2) then
        aupdate ags e.1 (fun a => setter a e.2.1) else ags) rest setter) k =
      alookup ags k
    rw [ih _ hrest]
    split
    · exact alookup_aupdate_ne _ _ _ _ (fun hh => he hh.symm)
    · rfl

theorem collectStep_nokey (ags : List (String × AgentModel))
    (accept toBool : String → Bool) (m : List (String × (Bool × Bool)))
    (r : PairRow) (k : String) (hr : ¬ rowStr r.a = k)
    (hm : alookup m k = none) :
    alookup (collectStep ags accept toBool m r) k = none := by
  unfold collectStep
  dsimp only
  split
  · exact hm
  · split
    · split
      · rw [alookup_aset_ne _ _ _ _ (fun hh => hr hh.symm)]
        exact hm
      · rw [alookup_append, hm]
        simp [alookup, hr]
    · exact hm

theorem collect_foldl_nokey (ags : List (String × AgentModel))
    (accept toBool : String → Bool) (k : String) (rows : List PairRow) :
    ∀ (m : List (String × (Bool × Bool))),
      (∀ r ∈ rows, ¬ rowStr r.a = k) → alookup m k = none →
      alookup (rows.foldl (collectStep ags accept toBool) m) k = none := by
  induction rows with
  | nil => intro m _ hm; exact hm
  | cons r rest ih =>
    intro m hrows hm
    rw [List.foldl_cons]
    exact ih _ (fun x hx => hrows x (List.mem_cons_of_mem r hx))
      (collectStep_nokey ags accept toBool m r k
        (hrows r (List.mem_cons_self r rest)) hm)

theorem collectBools_nokey (ags : List (String × AgentModel))
    (rows : List PairRow) (accept toBool : String → Bool) (k : String)
    (h : ∀ r ∈ rows, ¬ rowStr r.a = k) :
    alookup (collectBools ags rows accept toBool) k = none :=
  collect_foldl_nokey ags accept toBool k rows [] h rfl

theorem stage15Deleg_skip (cfgLinks : List PairRow)
    (m : List (List Char × List (List Char × List Char))) (iri : String)
    (a : AgentModel)
    (hfind : find_config_value_for_agent cfgLinks iri
      ("allow_delegation".data) m = none) :
    stage15Deleg cfgLinks m iri a = a := by
  unfold stage15Deleg
  split
  · rw [hfind]
  · rfl

theorem stage15Deleg_verbose (cfgLinks : List PairRow)
    (m : List (List Char × List (List Char × List Char))) (iri : String)
    (a : AgentModel) :
    (stage15Deleg cfgLinks m iri a).verbose = a.verbose := by
  unfold stage15Deleg
  split
  · split <;> rfl
  · rfl

theorem stage15Verb_deleg (cfgLinks : List PairRow)
    (m : List (List Char × List (List Char × List Char))) (iri : String)
    (a : AgentModel) :
    (stage15Verb cfgLinks m iri a).allow_delegation =
      a.allow_delegation := by
  unfold stage15Verb
  split
  · split <;> rfl
  · rfl

theorem stage15Verb_skip (cfgLinks : List PairRow)
    (m : List (List Char × List (List Char × List Char))) (iri : String)
    (a : AgentModel)
    (hfind : find_config_value_for_agent cfgLinks iri
      ("verbose".data) m = none) :
    stage15Verb cfgLinks m iri a = a := by
  unfold stage15Verb
  split
  · rw [hfind]
  · rfl

theorem stage15Update_deleg (cfgLinks : List PairRow)
    (m : List (List Char × List (List Char × List Char))) (iri : String)
    (a : AgentModel)
    (hfind : find_config_value_for_agent cfgLinks iri
      ("allow_delegation".data) m = none) :
    (stage15Update cfgLinks m iri a).allow_delegation =
      a.allow_delegation := by
  unfold stage15Update
  rw [stage15Deleg_skip _ _ _ _ hfind, stage15Verb_deleg]

theorem stage15Update_verbose (cfgLinks : List PairRow)
    (m : List (List Char × List (List Char × List Char))) (iri : String)
    (a : AgentModel)
    (hfind : find_config_value_for_agent cfgLinks iri
      ("verbose".data) m = none) :
    (stage15Update cfgLinks m iri a).verbose = a.verbose := by
  unfold stage15Update
  rw [stage15Verb_skip _ _ _ _ hfind, stage15Deleg_verbose]

theorem agentsStage15_proj_deleg (ags : List (String × AgentModel))
    (cfgLinks : List PairRow) (raw : List Char) (k : String)
    (hfind : find_config_value_for_agent cfgLinks k
      ("allow_delegation".data) (parse_config_kv_from_ttl raw) = none) :
    (alookup (agentsStage15 ags cfgLinks raw) k).map
        (fun a => a.allow_delegation) =
      (alookup ags k).map (fun a => a.allow_delegation) := by
  unfold agentsStage15
  split
  · rfl
  · rw [alookup_keyed_map]
    cases alookup ags k with
    | none => rfl
    | some a => simp [stage15Update_deleg _ _ _ _ hfind]

theorem agentsStage15_proj_verbose (ags : List (String × AgentModel))
    (cfgLinks : List PairRow) (raw : List Char) (k : String)
    (hfind : find_config_value_for_agent cfgLinks k
      ("verbose".data) (parse_config_kv_from_ttl raw) = none) :
    (alookup (agentsStage15 ags cfgLinks raw) k).map (fun a => a.verbose) =
      (alookup ags k).map (fun a => a.verbose) := by
  unfold agentsStage15
  split
  · rfl
  · rw [alookup_keyed_map]
    cases alookup ags k with
    | none => rfl
    | some a => simp [stage15Update_verbose _ _ _ _ hfind]

theorem textDeleg_skip (allText : String) (a : AgentModel)
    (hp : parse_bool_from_text allText "allow_delegation" = none) :
    textDeleg allText a = a := by
  unfold textDeleg
  split
  · rw [hp]
  · rfl

theorem textDeleg_verbose (allText : String) (a : AgentModel) :
    (textDeleg allText a).verbose = a.verbose := by
  unfold textDeleg
  split
  · split <;> rfl
  · rfl

theorem textVerb_deleg (allText : String) (a : AgentModel) :
    (textVerb allText a).allow_delegation = a.allow_delegation := by
  unfold textVerb
  split
  · split <;> rfl
  · rfl

theorem textVerb_skip (allText : String) (a : AgentModel)
    (hp : parse_bool_from_text allText "verbose" = none) :
    textVerb allText a = a := by
  unfold textVerb
  split
  · rw [hp]
  · rfl

theorem textUpdate_deleg (allText : String) (a : AgentModel)
    (hp : parse_bool_from_text allText "allow_delegation" = none) :
    (textUpdate allText a).allow_delegation = a.allow_delegation := by
  unfold textUpdate
  rw [textDeleg_skip _ _ hp, textVerb_deleg]

theorem textUpdate_verbose (allText : String) (a : AgentModel)
    (hp : parse_bool_from_text allText "verbose" = none) :
    (textUpdate allText a).verbose = a.verbose := by
  unfold textUpdate
  rw [textVerb_skip _ _ hp, textDeleg_verbose]

theorem agentsStageText_proj_deleg (rows : List AgentTextRow) :
    ∀ (ags : List (String × AgentModel)) (k : String),
      (∀ r ∈ rows, rowStr r.agent = k →
        parse_bool_from_text (agentRowText r) "allow_delegation" = none) →
      (alookup (agentsStageText ags rows) k).map
          (fun a => a.allow_delegation) =
        (alookup ags k).map (fun a => a.allow_delegation) := by
  induction rows with
  | nil => intro ags k _; rfl
  | cons r rest ih =>
    intro ags k h
    have hstep : agentsStageText ags (r :: rest) =
        agentsStageText
          (if pyStrip (agentRowText r) = "" then ags
            else aupdate ags (rowStr r.agent) (textUpdate (agentRowText r)))
          rest := rfl
    rw [hstep, ih _ k (fun x hx hxk => h x (List.mem_cons_of_mem r hx) hxk)]
    split
    · rfl
    · by_cases hk : rowStr r.agent = k
      · refine alookup_aupdate_proj _ _ _ _ _ ?_
        intro a
        exact textUpdate_deleg _ a (h r (List.mem_cons_self r rest) hk)
      · rw [alookup_aupdate_ne _ _ _ _ (fun hh => hk hh.symm)]

theorem agentsStageText_proj_verbose (rows : List AgentTextRow) :
    ∀ (ags : List (String × AgentModel)) (k : String),
      (∀ r ∈ rows, rowStr r.agent = k →
        parse_bool_from_text (agentRowText r) "verbose" = none) →
      (alookup (agentsStageText ags rows) k).map (fun a => a.verbose) =
        (alookup ags k).map (fun a => a.verbose) := by
  induction rows with
  | nil => intro ags k _; rfl
  | cons r rest ih =>
    intro ags k h
    have hstep : agentsStageText ags (r :: rest) =
        agentsStageText
          (if pyStrip (agentRowText r) = "" then ags
            else aupdate ags (rowStr r.agent) (textUpdate (agentRowText r)))
          rest := rfl
    rw [hstep, ih _ k (fun x hx hxk => h x (List.mem_cons_of_mem r hx) hxk)]
    split
    · rfl
    · by_cases hk : rowStr r.agent = k
      · refine alookup_aupdate_proj _ _ _ _ _ ?_
        intro a
        exact textUpdate_verbose _ a (h r (List.mem_cons_self r rest) hk)
      · rw [alookup_aupdate_ne _ _ _ _ (fun hh => hk hh.symm)]

theorem primary_foldl_flags (rows : List AgentRow) :
    ∀ (acc : List (String × AgentModel)),
      (∀ k b, alookup acc k = some b →
        b.allow_delegation = none ∧ b.verbose = none) →
      ∀ k b, alookup (rows.foldl primaryStep acc) k = some b →
        b.allow_delegation = none ∧ b.verbose = none := by
  induction rows with
  | nil => intro acc h; exact h
  | cons r rest ih =>
    intro acc h
    rw [List.foldl_cons]
    refine ih (primaryStep acc r) ?_
    intro k b hb
    unfold primaryStep at hb
    dsimp only at hb
    split at hb
    · exact h k b hb
    · rw [alookup_append] at hb
      cases hacc : alookup acc k with
      | some w =>
        rw [hacc] at hb
        cases hb
        exact h k b hacc
      | none =>
        rw [hacc] at hb
        by_cases hkk : rowStr r.agent = k
        · simp [alookup, hkk] at hb
          rw [← hb]
          exact ⟨rfl, rfl⟩
        · simp [alookup, hkk] at hb

theorem primary_flags (rows : List AgentRow) (k : String) (b : AgentModel)
    (h : alookup (agentsStagePrimary rows) k = some b) :
    b.allow_delegation = none ∧ b.verbose = none :=
  primary_foldl_flags rows [] (fun k' b' h' => by cases h') k b h

theorem finalDefaults_flags (a : AgentModel) :
    (finalDefaults a).allow_delegation = a.allow_delegation ∧
      (finalDefaults a).verbose = a.verbose :=
  ⟨rfl, rfl⟩

theorem you_are_ne_empty (r : String) :
    ¬ ("You are a " ++ r ++ "." = "") := by
  intro h
  have hlen := congrArg String.length h
  rw [String.length_append, String.length_append] at hlen
  have h1 : ("You are a " : String).length = 10 := rfl
  have h2 : ("." : String).length = 1 := rfl
  have h3 : ("" : String).length = 0 := rfl
  omega

theorem finalDefaults_nonempty (a : AgentModel) :
    ¬ (finalDefaults a).role = "" ∧ ¬ (finalDefaults a).goal = "" ∧
      ¬ (finalDefaults a).backstory = "" := by
  unfold finalDefaults
  dsimp only
  refine ⟨?_, ?_, ?_⟩
  · split
    · decide
    · assumption
  · split
    · split
      · decide
      · assumption
    · assumption
  · split
    · exact you_are_ne_empty _
    · assumption

/-- C2: for every agent whose allow_delegation is absent from all
sources — no dedicated config-key row, no raw-text-recovered Config
pair for the agent's linked Config nodes, and no text-pattern match in
its description/comment/prompt texts — the resolved allow_delegation
of the extracted AgentModel is `none` (unknown, omitted), never
defaulted to False; and the same holds for the verbose flag. -/
theorem C2_tristate_unknown :
    ∀ (q : AgentQueryRows) (tools_map : List (String × ToolModel))
      (lm_map : List (String × LanguageModelModel)) (raw : List Char)
      (iri : String) (a : AgentModel),
      alookup (extract_agents q tools_map lm_map raw) iri = some a →
      ((∀ r ∈ q.delegations, ¬ rowStr r.a = iri) →
        find_config_value_for_agent q.cfgLinks iri
          ("allow_delegation".data) (parse_config_kv_from_ttl raw) = none →
        (∀ r ∈ q.texts, rowStr r.agent = iri →
          parse_bool_from_text (agentRowText r) "allow_delegation" = none) →
        a.allow_delegation = none) ∧
      ((∀ r ∈ q.verboses, ¬ rowStr r.a = iri) →
        find_config_value_for_agent q.cfgLinks iri ("verbose".data)
          (parse_config_kv_from_ttl raw) = none →
        (∀ r ∈ q.texts, rowStr r.agent = iri →
          parse_bool_from_text (agentRowText r) "verbose" = none) →
        a.verbose = none) := by
  intro q tools_map lm_map raw iri a h
  simp only [extract_agents] at h
  rw [alookup_map_snd] at h
  rcases Option.map_eq_some'.mp h with ⟨a9, h9, hfd⟩
  subst hfd
  set A0 := agentsStagePrimary q.agents with hA0def
  set A1 := agentsStageGoal A0 q.goals with hA1def
  set A2 := agentsStageConfig A1 q.configs with hA2def
  set A3 := agentsStageBackstory A2 q.backstories with hA3def
  set A4 := agentsStageTools A3 q.toolLinks tools_map with hA4def
  set A5 := agentsStageLLM A4 q.llmLinks lm_map with hA5def
  set M6 := collectBools A5 q.delegations delegAccept delegToBool
    with hM6def
  set A6 := applyCollected A5 M6
    (fun a b => { a with allow_delegation := some b }) with hA6def
  set M7 := collectBools A6 q.verboses verboseAccept verboseToBool
    with hM7def
  set A7 := applyCollected A6 M7 (fun a b => { a with verbose := some b })
    with hA7def
  set A8 := agentsStage15 A7 q.cfgLinks raw with hA8def
  set A9 := agentsStageText A8 q.texts with hA9def
  constructor
  · intro hdel hfind htext
    have e9 := agentsStageText_proj_deleg q.texts A8 iri htext
    have e8 := agentsStage15_proj_deleg A7 q.cfgLinks raw iri hfind
    have e7 := applyCollected_proj (fun x => x.allow_delegation)
      (fun a b => { a with verbose := some b }) (fun x b => rfl) A6 M7 iri
    have hm6 := collectBools_nokey A5 q.delegations delegAccept delegToBool
      iri hdel
    have e6 := applyCollected_nokey A5 M6
      (fun a b => { a with allow_delegation := some b }) iri
      ((alookup_eq_none_iff M6 iri).mp (hM6def ▸ hm6))
    have e5 := agentsStageLLM_proj (fun x => x.allow_delegation)
      (fun v x => rfl) A4 q.llmLinks lm_map iri
    have e4 := agentsStageTools_proj (fun x => x.allow_delegation)
      (fun v x => rfl) A3 q.toolLinks tools_map iri
    have e3 := agentsStageBackstory_proj (fun x => x.allow_delegation)
      (fun v x => by dsimp only; split <;> rfl) A2 q.backstories iri
    have e2 := agentsStageConfig_proj (fun x => x.allow_delegation) A1
      q.configs iri (fun v x => rfl) (fun v x => rfl) (fun v x => rfl)
    have e1 := agentsStageGoal_proj (fun x => x.allow_delegation)
      (fun v x => by dsimp only; split <;> rfl) A0 q.goals iri
    have echain : (alookup A9 iri).map (fun x => x.allow_delegation) =
        (alookup A0 iri).map (fun x => x.allow_delegation) := by
      rw [hA9def, e9, hA8def, e8, hA7def, e7, hA6def, e6, hA5def, e5,
        hA4def, e4, hA3def, e3, hA2def, e2, hA1def, e1]
    rw [h9] at echain
    cases hA0 : alookup A0 iri with
    | none =>
      rw [hA0] at echain
      simp at echain
    | some b =>
      rw [hA0] at echain
      have hb := (primary_flags q.agents iri b (hA0def ▸ hA0)).1
      have hab : a9.allow_delegation = b.allow_delegation := by
        simpa using echain
      rw [(finalDefaults_flags a9).1, hab, hb]
  · intro hver hfind htext
    have e9 := agentsStageText_proj_verbose q.texts A8 iri htext
    have e8 := agentsStage15_proj_verbose A7 q.cfgLinks raw iri hfind
    have hm7 := collectBools_nokey A6 q.verboses verboseAccept verboseToBool
      iri hver
    have e7 := applyCollected_nokey A6 M7
      (fun a b => { a with verbose := some b }) iri
      ((alookup_eq_none_iff M7 iri).mp (hM7def ▸ hm7))
    have e6 := applyCollected_proj (fun x => x.verbose)
      (fun a b => { a with allow_delegation := some b }) (fun x b => rfl)
      A5 M6 iri
    have e5 := agentsStageLLM_proj (fun x => x.verbose)
      (fun v x => rfl) A4 q.llmLinks lm_map iri
    have e4 := agentsStageTools_proj (fun x => x.verbose)
      (fun v x => rfl) A3 q.toolLinks tools_map iri
    have e3 := agentsStageBackstory_proj (fun x => x.verbose)
      (fun v x => by dsimp only; split <;> rfl) A2 q.backstories iri
    have e2 := agentsStageConfig_proj (fun x => x.verbose) A1
      q.configs iri (fun v x => rfl) (fun v x => rfl) (fun v x => rfl)
    have e1 := agentsStageGoal_proj (fun x => x.verbose)
      (fun v x => by dsimp only; split <;> rfl) A0 q.goals iri
    have echain : (alookup A9 iri).map (fun x => x.verbose) =
        (alookup A0 iri).map (fun x => x.verbose) := by
      rw [hA9def, e9, hA8def, e8, hA7def, e7, hA6def, e6, hA5def, e5,
        hA4def, e4, hA3def, e3, hA2def, e2, hA1def, e1]
    rw [h9] at echain
    cases hA0 : alookup A0 iri with
    | none =>
      rw [hA0] at echain
      simp at echain
    | some b =>
      rw [hA0] at echain
      have hb := (primary_flags q.agents iri b (hA0def ▸ hA0)).2
      have hab : a9.verbose = b.verbose := by
        simpa using echain
      rw [(finalDefaults_flags a9).2, hab, hb]

theorem C2_tristate_unknown_witness :
    alookup (extract_agents sampleAgentQuery [] [] []) "http://x#A1" =
      some sampleAgentOut ∧
    sampleAgentOut.allow_delegation = none ∧
    sampleAgentOut.verbose = none := by
  have hl : alookup (extract_agents sampleAgentQuery [] [] [])
      "http://x#A1" = some sampleAgentOut := by decide
  refine ⟨hl, ?_, ?_⟩
  · exact (C2_tristate_unknown sampleAgentQuery [] [] [] "http://x#A1"
      sampleAgentOut hl).1 (by decide) (by decide) (by decide)
  · exact (C2_tristate_unknown sampleAgentQuery [] [] [] "http://x#A1"
      sampleAgentOut hl).2 (by decide) (by decide) (by decide)

/-- C3: every extracted AgentModel has nonempty role, goal and
backstory; every extracted agent has passed through the final-defaults
step, which sets a still-empty role to "LLM Agent", a still-empty goal
to the (defaulted) role, and a still-empty backstory to
"You are a {role}." with the role substituted. -/
theorem C3_agent_field_defaults :
    (∀ (q : AgentQueryRows) (tools_map : List (String × ToolModel))
      (lm_map : List (String × LanguageModelModel)) (raw : List Char)
      (iri : String) (a : AgentModel),
      alookup (extract_agents q tools_map lm_map raw) iri = some a →
      ¬ a.role = "" ∧ ¬ a.goal = "" ∧ ¬ a.backstory = "" ∧
        ∃ b, a = finalDefaults b) ∧
    (∀ b : AgentModel, b.role = "" → (finalDefaults b).role = "LLM Agent") ∧
    (∀ b : AgentModel, b.goal = "" →
      (finalDefaults b).goal = (finalDefaults b).role) ∧
    (∀ b : AgentModel, b.backstory = "" →
      (finalDefaults b).backstory =
        "You are a " ++ (finalDefaults b).role ++ ".") := by
  refine ⟨?_, ?_, ?_, ?_⟩
  · intro q tools_map lm_map raw iri a h
    simp only [extract_agents] at h
    rw [alookup_map_snd] at h
    rcases Option.map_eq_some'.mp h with ⟨a9, h9, hfd⟩
    subst hfd
    rcases finalDefaults_nonempty a9 with ⟨h1, h2, h3⟩
    exact ⟨h1, h2, h3, a9, rfl⟩
  · intro b hb
    simp [finalDefaults, hb]
  · intro b hb
    simp [finalDefaults, hb]
  · intro b hb
    simp [finalDefaults, hb]

theorem C3_agent_field_defaults_witness :
    (¬ sampleAgentOut.role = "" ∧ ¬ sampleAgentOut.goal = "" ∧
      ¬ sampleAgentOut.backstory = "" ∧
      ∃ b, sampleAgentOut = finalDefaults b) ∧
    (finalDefaults (AgentModel.mk "i" "v" "" "" "" "" [] none none
      none)).role = "LLM Agent" ∧
    (finalDefaults (AgentModel.mk "i" "v" "" "" "" "" [] none none
      none)).goal =
      (finalDefaults (AgentModel.mk "i" "v" "" "" "" "" [] none none
        none)).role ∧
    (finalDefaults (AgentModel.mk "i" "v" "" "" "" "" [] none none
      none)).backstory =
      "You are a " ++
        (finalDefaults (AgentModel.mk "i" "v" "" "" "" "" [] none none
          none)).role ++ "." := by
  refine ⟨?_, ?_, ?_, ?_⟩
  · exact C3_agent_field_defaults.1 sampleAgentQuery [] [] []
      "http://x#A1" sampleAgentOut (by decide)
  · exact C3_agent_field_defaults.2.1 _ rfl
  · exact C3_agent_field_defaults.2.2.1 _ rfl
  · exact C3_agent_field_defaults.2.2.2 _ rfl

theorem buildStepsAux_length (ivmap : List (String × String))
    (rows : List WorkflowRow) :
    ∀ n, (buildStepsAux ivmap n rows).length = rows.length := by
  induction rows with
  | nil => intro n; rfl
  | cons r rest ih => intro n; simp [buildStepsAux, ih]

theorem buildStepsAux_get (ivmap : List (String × String))
    (rows : List WorkflowRow) :
    ∀ (n i : Nat) (h1 : i < (buildStepsAux ivmap n rows).length)
      (h2 : i < rows.length),
      ((buildStepsAux ivmap n rows).get ⟨i, h1⟩).step_order =
        (rows.get ⟨i, h2⟩).stepOrder.getD (Int.ofNat (n + i) + 1) := by
  induction rows with
  | nil => intro n i h1 h2; simp at h2
  | cons r rest ih =>
    intro n i h1 h2
    cases i with
    | zero =>
      cases ho : r.stepOrder with
      | some o => simp [buildStepsAux, List.get, ho]
      | none => simp [buildStepsAux, List.get, ho]
    | succ j =>
      have hj1 : j < (buildStepsAux ivmap (n + 1) rest).length := by
        simpa [buildStepsAux] using h1
      have hj2 : j < rest.length := by simpa using h2
      have := ih (n + 1) j hj1 hj2
      have harith : n + 1 + j = n + (j + 1) := by omega
      simpa [buildStepsAux, List.get, harith] using this

theorem mem_insertByKey {α : Type} (key : α → Int) (x : α) (l : List α)
    (a : α) : a ∈ insertByKey key x l ↔ a = x ∨ a ∈ l := by
  induction l with
  | nil => simp [insertByKey]
  | cons y ys ih =>
    unfold insertByKey
    split
    · simp [ih]
      tauto
    · simp

theorem insertByKey_sorted {α : Type} (key : α → Int) (x : α) (l : List α)
    (h : List.Pairwise (fun a b => key a ≤ key b) l) :
    List.Pairwise (fun a b => key a ≤ key b) (insertByKey key x l) := by
  induction l with
  | nil => simp [insertByKey]
  | cons y ys ih =>
    unfold insertByKey
    split
    · next hyx =>
      rcases List.pairwise_cons.mp h with ⟨hy, hys⟩
      refine List.pairwise_cons.mpr ⟨?_, ih hys⟩
      intro z hz
      rcases (mem_insertByKey key x ys z).mp hz with hzx | hzys
      · exact hzx ▸ hyx
      · exact hy z hzys
    · next hyx =>
      rcases List.pairwise_cons.mp h with ⟨hy, hys⟩
      refine List.pairwise_cons.mpr ⟨?_, h⟩
      intro z hz
      rcases List.mem_cons.mp hz with hzy | hzys
      · subst hzy
        omega
      · have := hy z hzys
        omega

theorem stableSortByKey_sorted {α : Type} (key : α → Int) (l : List α) :
    List.Pairwise (fun a b => key a ≤ key b) (stableSortByKey key l) := by
  unfold stableSortByKey
  suffices H : ∀ acc, List.Pairwise (fun a b => key a ≤ key b) acc →
      List.Pairwise (fun a b => key a ≤ key b)
        (l.foldl (fun acc x => insertByKey key x acc) acc) by
    exact H [] (by simp)
  induction l with
  | nil => intro acc h; exact h
  | cons x rest ih =>
    intro acc h
    rw [List.foldl_cons]
    exact ih _ (insertByKey_sorted key x acc h)

theorem insertByKey_max {α : Type} (key : α → Int) (x : α) (acc : List α)
    (h : ∀ y ∈ acc, key y ≤ key x) :
    insertByKey key x acc = acc ++ [x] := by
  induction acc with
  | nil => rfl
  | cons y ys ih =>
    unfold insertByKey
    rw [if_pos (h y (List.mem_cons_self y ys))]
    rw [ih (fun z hz => h z (List.mem_cons_of_mem y hz))]
    simp

theorem foldl_insert_all_max {α : Type} (key : α → Int) (K : Int)
    (l : List α) (hl : ∀ t ∈ l, key t = K) :
    ∀ acc, (∀ y ∈ acc, key y ≤ K) →
      l.foldl (fun acc x => insertByKey key x acc) acc = acc ++ l := by
  induction l with
  | nil => intro acc _; simp
  | cons t rest ih =>
    intro acc hacc
    rw [List.foldl_cons]
    have ht : key t = K := hl t (List.mem_cons_self t rest)
    rw [insertByKey_max key t acc (fun y hy => ht ▸ hacc y hy)]
    rw [ih (fun z hz => hl z (List.mem_cons_of_mem t hz)) (acc ++ [t]) ?_]
    · simp
    · intro y hy
      rcases List.mem_append.mp hy with hya | hyt
      · exact hacc y hya
      · simp at hyt
        subst hyt
        omega

theorem reorder_scenario (others : List TaskModel)
    (h : ∀ t ∈ others, ¬ t.var_name = "task_a" ∧ ¬ t.var_name = "task_b" ∧
      ¬ t.var_name = "task_c") :
    reorderTasks (extract_workflow wfRows wfTasksMap)
      ([wfTaskA, wfTaskB, wfTaskC] ++ others) =
      [wfTaskB, wfTaskA, wfTaskC] ++ others := by
  have hom : stepOrderMap (extract_workflow wfRows wfTasksMap) =
      [("task_b", (1 : Int)), ("task_a", 2), ("task_c", 3)] := by decide
  have hkey : ∀ t ∈ others,
      (match alookup (stepOrderMap (extract_workflow wfRows wfTasksMap))
          t.var_name with
        | some o => o
        | none => (999 : Int)) = 999 := by
    intro t ht
    rcases h t ht with ⟨ha, hb, hc⟩
    rw [hom]
    simp [alookup, Ne.symm ha, Ne.symm hb, Ne.symm hc]
  unfold reorderTasks
  rw [if_neg (by decide)]
  unfold stableSortByKey
  rw [List.foldl_append]
  have hbase : List.foldl
      (fun acc x => insertByKey
        (fun t => match alookup (stepOrderMap
            (extract_workflow wfRows wfTasksMap)) t.var_name with
          | some o => o
          | none => (999 : Int)) x acc)
      [] [wfTaskA, wfTaskB, wfTaskC] =
      [wfTaskB, wfTaskA, wfTaskC] := by decide
  rw [hbase]
  exact foldl_insert_all_max _ 999 others hkey [wfTaskB, wfTaskA, wfTaskC]
    (by decide)

/-- C5: workflow steps with no explicit order default to one more than
the number of steps collected so far; the step list is sorted by order
(insertion-stable); for the document with three steps of explicit
orders 2, 1, 3 referencing tasks A, B, C (in that traversal order) the
resolved ordering handed to renderers is [B, A, C], and tasks not
referenced by any step sort after all ordered ones in their original
relative order (sort key 999). -/
theorem C5_workflow_ordering :
    (∀ (ivmap : List (String × String)) (rows : List WorkflowRow)
      (n : Nat), (buildStepsAux ivmap n rows).length = rows.length) ∧
    (∀ (ivmap : List (String × String)) (rows : List WorkflowRow)
      (n i : Nat) (h1 : i < (buildStepsAux ivmap n rows).length)
      (h2 : i < rows.length),
      ((buildStepsAux ivmap n rows).get ⟨i, h1⟩).step_order =
        (rows.get ⟨i, h2⟩).stepOrder.getD (Int.ofNat (n + i) + 1)) ∧
    (∀ (rows : List WorkflowRow) (tasks : List (String × TaskModel)),
      List.Pairwise (fun a b => a.step_order ≤ b.step_order)
        (extract_workflow rows tasks)) ∧
    (extract_workflow wfRows wfTasksMap =
      [WorkflowStepModel.mk 1 "task_b" "WorkflowStep",
        WorkflowStepModel.mk 2 "task_a" "WorkflowStep",
        WorkflowStepModel.mk 3 "task_c" "WorkflowStep"]) ∧
    ((reorderTasks (extract_workflow wfRows wfTasksMap)
        [wfTaskA, wfTaskB, wfTaskC]).map (fun t => t.var_name) =
      ["task_b", "task_a", "task_c"]) ∧
    (∀ others : List TaskModel,
      (∀ t ∈ others, ¬ t.var_name = "task_a" ∧ ¬ t.var_name = "task_b" ∧
        ¬ t.var_name = "task_c") →
      reorderTasks (extract_workflow wfRows wfTasksMap)
        ([wfTaskA, wfTaskB, wfTaskC] ++ others) =
        [wfTaskB, wfTaskA, wfTaskC] ++ others) := by
  refine ⟨buildStepsAux_length, buildStepsAux_get, ?_, by decide,
    by decide, reorder_scenario⟩
  intro rows tasks
  exact stableSortByKey_sorted _ _

theorem C5_workflow_ordering_witness :
    ((buildStepsAux [] 0 [WorkflowRow.mk "t" none "s"]).get
        ⟨0, by decide⟩).step_order = 1 ∧
    reorderTasks (extract_workflow wfRows wfTasksMap)
      ([wfTaskA, wfTaskB, wfTaskC] ++
        [TaskModel.mk "http://x#TD" "task_d" "dD" "oD" "" [] none]) =
      [wfTaskB, wfTaskA, wfTaskC] ++
        [TaskModel.mk "http://x#TD" "task_d" "dD" "oD" "" [] none] := by
  constructor
  · have h := C5_workflow_ordering.2.1 [] [WorkflowRow.mk "t" none "s"]
      0 0 (by decide) (by decide)
    simpa using h
  · exact C5_workflow_ordering.2.2.2.2.2
      [TaskModel.mk "http://x#TD" "task_d" "dD" "oD" "" [] none]
      (by decide)

theorem resolveStep_lookup (pm : List (String × String))
    (ts : List (String × TaskModel)) (r : PairRow) (iri : String)
    (t : TaskModel) (h : alookup ts iri = some t) :
    ∃ t', alookup (resolveStep pm ts r) iri = some t' ∧
      t'.var_name = t.var_name ∧
      (t' = t ∨ (rowStr r.a = iri ∧
        ∃ pv, alookup pm (rowStr r.b) = some pv ∧ ¬ pv = t.var_name ∧
          ¬ pv ∈ t.context_task_var_names ∧
          t' = { t with context_task_var_names :=
            t.context_task_var_names ++ [pv] })) := by
  unfold resolveStep
  split
  · next w pv hts hpm =>
    by_cases hiri : rowStr r.a = iri
    · subst hiri
      rw [alookup_aupdate_self, h]
      by_cases hcond : ¬ pv = t.var_name ∧ ¬ pv ∈ t.context_task_var_names
      · refine ⟨_, rfl, ?_, ?_⟩
        · simp [hcond]
        · right
          refine ⟨rfl, pv, hpm, hcond.1, hcond.2, ?_⟩
          simp [hcond]
      · refine ⟨t, ?_, rfl, Or.inl rfl⟩
        simp [hcond]
    · rw [alookup_aupdate_ne _ _ _ _ (fun hh => hiri hh.symm)]
      exact ⟨t, h, rfl, Or.inl rfl⟩
  · exact ⟨t, h, rfl, Or.inl rfl⟩

theorem resolve_foldl_lookup (pm : List (String × String))
    (rows : List PairRow) :
    ∀ (ts : List (String × TaskModel)) (iri : String) (t : TaskModel),
      alookup ts iri = some t →
      ∃ t', alookup (rows.foldl (resolveStep pm) ts) iri = some t' ∧
        t'.var_name = t.var_name ∧
        (∀ v ∈ t.context_task_var_names, v ∈ t'.context_task_var_names) ∧
        (∀ v ∈ t'.context_task_var_names,
          v ∈ t.context_task_var_names ∨
            ∃ r ∈ rows, rowStr r.a = iri ∧
              alookup pm (rowStr r.b) = some v) ∧
        (t.context_task_var_names.Nodup →
          t'.context_task_var_names.Nodup) ∧
        (¬ t.var_name ∈ t.context_task_var_names →
          ¬ t.var_name ∈ t'.context_task_var_names) := by
  induction rows with
  | nil =>
    intro ts iri t h
    exact ⟨t, h, rfl, fun v hv => hv, fun v hv => Or.inl hv,
      fun hn => hn, fun hn => hn⟩
  | cons r rest ih =>
    intro ts iri t h
    rw [List.foldl_cons]
    rcases resolveStep_lookup pm ts r iri t h with ⟨t1, h1, hvar1, hcase⟩
    rcases ih (resolveStep pm ts r) iri t1 h1 with
      ⟨t', h', hvar', hmono', hprov', hnodup', hself'⟩
    rcases hcase with ht1 | ⟨hra, pv, hpm, hpvvar, hpvmem, ht1⟩
    · subst ht1
      refine ⟨t', h', hvar'.trans hvar1, hmono', ?_, hnodup', hself'⟩
      intro v hv
      rcases hprov' v hv with hin | ⟨r', hr', hr'a, hr'pm⟩
      · exact Or.inl hin
      · exact Or.inr ⟨r', List.mem_cons_of_mem r hr', hr'a, hr'pm⟩
    · subst ht1
      refine ⟨t', h', hvar'.trans hvar1, ?_, ?_, ?_, ?_⟩
      · intro v hv
        exact hmono' v (by simp [hv])
      · intro v hv
        rcases hprov' v hv with hin | ⟨r', hr', hr'a, hr'pm⟩
        · rcases List.mem_append.mp hin with hin' | hin''
          · exact Or.inl hin'
          · simp at hin''
            subst hin''
            exact Or.inr ⟨r, List.mem_cons_self r rest, hra, hpm⟩
        · exact Or.inr ⟨r', List.mem_cons_of_mem r hr', hr'a, hr'pm⟩
      · intro hnd
        refine hnodup' ?_
        rw [← List.concat_eq_append]
        exact List.Nodup.concat hpvmem hnd
      · intro hvn
        refine hself' ?_
        simp only [List.mem_append, List.mem_singleton]
        rintro (hvin | hveq)
        · exact hvn hvin
        · exact hpvvar hveq.symm

theorem resolve_foldl_gains (pm : List (String × String))
    (rows : List PairRow) :
    ∀ (ts : List (String × TaskModel)) (yIri : String) (t : TaskModel)
      (xv : String),
      alookup ts yIri = some t → ¬ xv = t.var_name →
      (∃ r ∈ rows, rowStr r.a = yIri ∧
        alookup pm (rowStr r.b) = some xv) →
      ∃ t', alookup (rows.foldl (resolveStep pm) ts) yIri = some t' ∧
        xv ∈ t'.context_task_var_names := by
  induction rows with
  | nil =>
    intro ts yIri t xv h hne hex
    simp at hex
  | cons r rest ih =>
    intro ts yIri t xv h hne hex
    rw [List.foldl_cons]
    rcases hex with ⟨r0, hr0mem, hr0a, hr0pm⟩
    rcases List.mem_cons.mp hr0mem with hr0r | hr0rest
    · subst hr0r
      have hstep : ∃ t1, alookup (resolveStep pm ts r0) yIri = some t1 ∧
          t1.var_name = t.var_name ∧ xv ∈ t1.context_task_var_names := by
        unfold resolveStep
        rw [hr0a, h, hr0pm]
        rw [alookup_aupdate_self, h]
        by_cases hcond : ¬ xv = t.var_name ∧
            ¬ xv ∈ t.context_task_var_names
        · refine ⟨_, rfl, by simp [hcond], ?_⟩
          simp [hcond]
        · have hxv : xv ∈ t.context_task_var_names := by
            rcases not_and_or.mp hcond with hc1 | hc2
            · exact absurd hne (by simpa using hc1)
            · simpa using hc2
          refine ⟨_, rfl, ?_, ?_⟩
          · simp [hcond]
          · simp [hcond, hxv]
      rcases hstep with ⟨t1, h1, hvar1, hmem1⟩
      rcases resolve_foldl_lookup pm rest _ yIri t1 h1 with
        ⟨t', h', _, hmono', _, _, _⟩
      exact ⟨t', h', hmono' xv hmem1⟩
    · rcases resolveStep_lookup pm ts r yIri t h with ⟨t1, h1, hvar1, _⟩
      exact ih _ yIri t1 xv h1 (hvar1 ▸ hne) ⟨r0, hr0rest, hr0a, hr0pm⟩

/-- C6 counterexample: with produces-rows [(X,R), (Z,R)] the later
producer Z overwrites X in the resource map ("last writer wins"), so
although X declares producedResource R and Y requires R (X ≠ Y), Y's
resolved context is ["z"], which does not contain X's identifier
"x" — the claim as stated fails on this document. -/
theorem C6_counterexample :
    PairRow.mk "http://x#TX" "http://x#R" ∈ ctxProduces ∧
    PairRow.mk "http://x#TY" "http://x#R" ∈ ctxRequires ∧
    ¬ ("http://x#TX" = "http://x#TY") ∧
    (alookup (resolve_task_context ctxProduces ctxRequires ctxTasks)
        "http://x#TY").map (fun t => t.context_task_var_names) =
      some ["z"] ∧
    ¬ ("x" ∈ (["z"] : List String)) := by decide

/-- C6 (amended): when X is the task whose produces-row wins the
last-writer resolution for resource R (so the producer map sends R to
X's identifier) and Y requires R with a different identifier, Y's
resolved context contains X's identifier; X's context does not gain
Y's identifier provided none of X's own required resources resolve to
Y as producer and it was not already present; a producer equal to the
consuming task itself is never appended; and duplicate entries are
skipped (context lists stay duplicate-free). -/
theorem C6_task_context :
    (∀ (produces requires : List PairRow)
      (tasks : List (String × TaskModel)) (xIri yIri R : String)
      (xT yT : TaskModel),
      alookup tasks xIri = some xT → alookup tasks yIri = some yT →
      alookup (resolveProducers produces tasks) R = some xT.var_name →
      (∃ r ∈ requires, rowStr r.a = yIri ∧ rowStr r.b = R) →
      ¬ xT.var_name = yT.var_name →
      (∀ r ∈ requires, rowStr r.a = xIri →
        ¬ alookup (resolveProducers produces tasks) (rowStr r.b) =
          some yT.var_name) →
      ¬ yT.var_name ∈ xT.context_task_var_names →
      (∃ yT', alookup (resolve_task_context produces requires tasks)
          yIri = some yT' ∧ xT.var_name ∈ yT'.context_task_var_names) ∧
      (∃ xT', alookup (resolve_task_context produces requires tasks)
          xIri = some xT' ∧
        ¬ yT.var_name ∈ xT'.context_task_var_names)) ∧
    (∀ (produces requires : List PairRow)
      (tasks : List (String × TaskModel)) (iri : String) (t t' : TaskModel),
      alookup tasks iri = some t →
      alookup (resolve_task_context produces requires tasks) iri =
        some t' →
      ¬ t.var_name ∈ t.context_task_var_names →
      ¬ t'.var_name ∈ t'.context_task_var_names) ∧
    (∀ (produces requires : List PairRow)
      (tasks : List (String × TaskModel)) (iri : String) (t t' : TaskModel),
      alookup tasks iri = some t →
      alookup (resolve_task_context produces requires tasks) iri =
        some t' →
      t.context_task_var_names.Nodup →
      t'.context_task_var_names.Nodup) := by
  refine ⟨?_, ?_, ?_⟩
  · intro produces requires tasks xIri yIri R xT yT hx hy hprod hreq hne
      hxreq hxnotin
    constructor
    · rcases hreq with ⟨r, hr, hra, hrb⟩
      exact resolve_foldl_gains _ requires tasks yIri yT xT.var_name hy
        (fun hh => hne (by rw [hh])) ⟨r, hr, hra, hrb ▸ hprod⟩
    · rcases resolve_foldl_lookup (resolveProducers produces tasks)
        requires tasks xIri xT hx with ⟨xT', h', _, _, hprov, _, _⟩
      refine ⟨xT', h', ?_⟩
      intro hmem
      rcases hprov _ hmem with hin | ⟨r, hr, hra, hrpm⟩
      · exact hxnotin hin
      · exact hxreq r hr hra hrpm
  · intro produces requires tasks iri t t' ht ht' hself
    rcases resolve_foldl_lookup (resolveProducers produces tasks)
      requires tasks iri t ht with ⟨t'', h'', hvar, _, _, _, hselfkeep⟩
    have heq : t'' = t' := by
      have h2 : alookup (resolve_task_context produces requires tasks) iri =
          some t'' := h''
      rw [ht'] at h2
      exact (Option.some.inj h2).symm
    subst heq
    rw [hvar]
    exact hselfkeep hself
  · intro produces requires tasks iri t t' ht ht' hnd
    rcases resolve_foldl_lookup (resolveProducers produces tasks)
      requires tasks iri t ht with ⟨t'', h'', _, _, _, hndkeep, _⟩
    have heq : t'' = t' := by
      have h2 : alookup (resolve_task_context produces requires tasks) iri =
          some t'' := h''
      rw [ht'] at h2
      exact (Option.some.inj h2).symm
    subst heq
    exact hndkeep hnd

theorem C6_task_context_witness :
    ((∃ yT', alookup (resolve_task_context
        [PairRow.mk "http://x#TX" "http://x#R"] ctxRequires ctxTasks)
        "http://x#TY" = some yT' ∧
      "x" ∈ yT'.context_task_var_names) ∧
    (∃ xT', alookup (resolve_task_context
        [PairRow.mk "http://x#TX" "http://x#R"] ctxRequires ctxTasks)
        "http://x#TX" = some xT' ∧
      ¬ "y" ∈ xT'.context_task_var_names)) ∧
    ¬ "y" ∈ (["z"] : List String) := by
  constructor
  · have h := C6_task_context.1 [PairRow.mk "http://x#TX" "http://x#R"]
      ctxRequires ctxTasks "http://x#TX" "http://x#TY" "http://x#R"
      ctxTaskX ctxTaskY (by decide) (by decide) (by decide)
      ⟨PairRow.mk "http://x#TY" "http://x#R", by decide⟩ (by decide)
      (by decide) (by decide)
    exact h
  · decide

theorem keys_aupdate {κ α : Type} [DecidableEq κ] (m : List (κ × α))
    (k : κ) (f : α → α) :
    (aupdate m k f).map Prod.fst = m.map Prod.fst := by
  induction m with
  | nil => rfl
  | cons e rest ih =>
    by_cases he : e.1 = k
    · simp [aupdate, he, ih]
    · simp [aupdate, he, ih]

theorem keys_aset_existing {κ α : Type} [DecidableEq κ] (m : List (κ × α))
    (k : κ) (v w : α) (h : alookup m k = some w) :
    (aset m k v).map Prod.fst = m.map Prod.fst := by
  unfold aset
  rw [h]
  exact keys_aupdate m k _

theorem mem_aupdate {κ α : Type} [DecidableEq κ] (m : List (κ × α))
    (k : κ) (f : α → α) (e : κ × α) (h : e ∈ aupdate m k f) :
    e ∈ m ∨ ∃ e₀ ∈ m, e₀.1 = k ∧ e = (e₀.1, f e₀.2) := by
  induction m with
  | nil => cases h
  | cons e1 rest ih =>
    by_cases he1 : e1.1 = k
    · rw [aupdate, if_pos he1] at h
      rcases List.mem_cons.mp h with h1 | h2
      · exact Or.inr ⟨e1, List.mem_cons_self e1 rest, he1, h1⟩
      · rcases ih h2 with h3 | ⟨e₀, he₀, hk₀, heq⟩
        · exact Or.inl (List.mem_cons_of_mem e1 h3)
        · exact Or.inr ⟨e₀, List.mem_cons_of_mem e1 he₀, hk₀, heq⟩
    · rw [aupdate, if_neg he1] at h
      rcases List.mem_cons.mp h with h1 | h2
      · exact Or.inl (h1 ▸ List.mem_cons_self e1 rest)
      · rcases ih h2 with h3 | ⟨e₀, he₀, hk₀, heq⟩
        · exact Or.inl (List.mem_cons_of_mem e1 h3)
        · exact Or.inr ⟨e₀, List.mem_cons_of_mem e1 he₀, hk₀, heq⟩

theorem mem_aset {κ α : Type} [DecidableEq κ] (m : List (κ × α)) (k : κ)
    (v : α) (e : κ × α) (h : e ∈ aset m k v) : e ∈ m ∨ e.1 = k := by
  unfold aset at h
  cases hm : alookup m k with
  | some w =>
    rw [hm] at h
    rcases mem_aupdate m k _ e h with h1 | ⟨e₀, _, hk₀, heq⟩
    · exact Or.inl h1
    · right
      rw [heq]
      exact hk₀
  | none =>
    rw [hm] at h
    rcases List.mem_append.mp h with h1 | h2
    · exact Or.inl h1
    · right
      simp at h2
      rw [h2]

theorem foldl_inv_mem {σ ρ : Type} (P : σ → Prop)
    (step : σ → ρ → σ) (rows : List ρ)
    (hstep : ∀ r ∈ rows, ∀ m, P m → P (step m r)) :
    ∀ m, P m → P (rows.foldl step m) := by
  induction rows with
  | nil => intro m hm; exact hm
  | cons r rest ih =>
    intro m hm
    rw [List.foldl_cons]
    exact ih (fun x hx => hstep x (List.mem_cons_of_mem r hx)) _
      (hstep r (List.mem_cons_self r rest) m hm)

theorem foldl_keys_eq {ρ : Type}
    (step : List (String × String) → ρ → List (String × String))
    (rows : List ρ)
    (hstep : ∀ r ∈ rows, ∀ m, (step m r).map Prod.fst = m.map Prod.fst) :
    ∀ m, (rows.foldl step m).map Prod.fst = m.map Prod.fst := by
  induction rows with
  | nil => intro m; rfl
  | cons r rest ih =>
    intro m
    rw [List.foldl_cons,
      ih (fun x hx => hstep x (List.mem_cons_of_mem r hx)),
      hstep r (List.mem_cons_self r rest)]

theorem defaults_line_step_keys (m : List (String × String))
    (line : List Char) :
    (match parseDefaultLine (normalizeDefaultLine line) with
      | some kv =>
        match alookup m kv.1 with
        | some _ => aset m kv.1 kv.2
        | none => m
      | none => m).map Prod.fst = m.map Prod.fst := by
  cases hp : parseDefaultLine (normalizeDefaultLine line) with
  | none => rfl
  | some kv =>
    cases hl : alookup m kv.1 with
    | none => simp [hl]
    | some w => simpa [hl] using keys_aset_existing m kv.1 kv.2 w hl

theorem addVars_values (names : List String) :
    ∀ m, (∀ e ∈ m, e.2 = "") → ∀ e ∈ addVars m names, e.2 = "" := by
  induction names with
  | nil => intro m hm; exact hm
  | cons n rest ih =>
    intro m hm
    refine ih _ ?_
    intro e he
    cases hl : alookup m n with
    | some w =>
      simp only [hl] at he
      exact hm e he
    | none =>
      simp only [hl] at he
      rcases List.mem_append.mp he with h1 | h2
      · exact hm e h1
      · simp at h2
        rw [h2]

/-- C9: the Input-Variable Miner yields, for a task description
"Research {topic} for {company}", the variables topic and company in
first-seen order, each defaulting to the empty string; the
default-value scan never introduces a variable name (the name list is
unchanged by default rows); and a variable's default stays "" unless
some default-row line parses to `name = value` / `name: value` for
that exact name. -/
theorem C9_input_variables :
    (extract_placeholders "Research {topic} for {company}" =
      ["topic", "company"]) ∧
    (extract_input_variables
        [("http://x#T1", TaskModel.mk "http://x#T1" "t1"
          "Research {topic} for {company}" "" "" [] none)] [] [] =
      [InputVariableModel.mk "topic" "",
        InputVariableModel.mk "company" ""]) ∧
    (∀ (tasks : List (String × TaskModel))
      (promptRows defaultRows : List String),
      (extract_input_variables tasks promptRows defaultRows).map
          (fun iv => iv.name) =
        (extract_input_variables tasks promptRows []).map
          (fun iv => iv.name)) ∧
    (∀ (tasks : List (String × TaskModel))
      (promptRows defaultRows : List String) (name : String),
      (∀ row ∈ defaultRows, ∀ line ∈ splitOnChar '\n' (rowStr row).data,
        ∀ kv, parseDefaultLine (normalizeDefaultLine line) = some kv →
          ¬ kv.1 = name) →
      ∀ iv ∈ extract_input_variables tasks promptRows defaultRows,
        iv.name = name → iv.default_value = "") := by
  refine ⟨by decide, by decide, ?_, ?_⟩
  · intro tasks promptRows defaultRows
    simp only [extract_input_variables]
    rw [List.map_map, List.map_map, List.foldl_nil]
    refine foldl_keys_eq _ defaultRows ?_ _
    intro row _ m
    refine foldl_keys_eq _ (splitOnChar '\n' (rowStr row).data) ?_ m
    intro line _ m'
    exact defaults_line_step_keys m' line
  · intro tasks promptRows defaultRows name hno iv hiv hname
    simp only [extract_input_variables] at hiv
    rcases List.mem_map.mp hiv with ⟨e, he, heq⟩
    have hv1 : ∀ e ∈ tasks.foldl
        (fun m e => addVars m (extract_placeholders e.2.description)) [],
        e.2 = "" := by
      refine foldl_inv_mem
        (fun m : List (String × String) => ∀ e ∈ m, e.2 = "") _ tasks ?_ []
        (by simp)
      intro r _ m hm
      exact addVars_values _ m hm
    have hv2 : ∀ e ∈ promptRows.foldl
        (fun m txt => addVars m (extract_placeholders (rowStr txt)))
        (tasks.foldl
          (fun m e => addVars m (extract_placeholders e.2.description)) []),
        e.2 = "" := by
      refine foldl_inv_mem
        (fun m : List (String × String) => ∀ e ∈ m, e.2 = "") _ promptRows
        ?_ _ hv1
      intro r _ m hm
      exact addVars_values _ m hm
    have hP : ∀ e ∈ defaultRows.foldl
        (fun m descRaw =>
          (splitOnChar '\n' (rowStr descRaw).data).foldl
            (fun m line =>
              match parseDefaultLine (normalizeDefaultLine line) with
              | some kv =>
                match alookup m kv.1 with
                | some _ => aset m kv.1 kv.2
                | none => m
              | none => m)
            m)
        (promptRows.foldl
          (fun m txt => addVars m (extract_placeholders (rowStr txt)))
          (tasks.foldl
            (fun m e => addVars m (extract_placeholders e.2.description))
            [])),
        e.1 = name → e.2 = "" := by
      refine foldl_inv_mem
        (fun m : List (String × String) => ∀ e ∈ m, e.1 = name → e.2 = "")
        _ defaultRows ?_ _ (fun e he _hn => hv2 e he)
      intro row hrow m hm
      refine foldl_inv_mem
        (fun m : List (String × String) => ∀ e ∈ m, e.1 = name → e.2 = "")
        _ (splitOnChar '\n' (rowStr row).data) ?_ m hm
      intro line hline m' hm' e' he' hname'
      cases hp : parseDefaultLine (normalizeDefaultLine line) with
      | none =>
        simp only [hp] at he'
        exact hm' e' he' hname'
      | some kv =>
        cases hl : alookup m' kv.1 with
        | none =>
          simp only [hp, hl] at he'
          exact hm' e' he' hname'
        | some w =>
          simp only [hp, hl] at he'
          rcases mem_aset m' kv.1 kv.2 e' he' with h1 | h2
          · exact hm' e' h1 hname'
          · exact absurd (h2.symm.trans hname')
              (hno row hrow line hline kv hp)
    have hdef : e.2 = "" := hP e he (by rw [← heq] at hname; exact hname)
    rw [← heq] at hname ⊢
    exact hdef

theorem C9_input_variables_witness :
    (∀ kv, parseDefaultLine (normalizeDefaultLine ("other = 1").data) =
      some kv → ¬ kv.1 = "topic") ∧
    InputVariableModel.mk "topic" "" ∈ extract_input_variables
      [("http://x#T1", TaskModel.mk "http://x#T1" "t1"
        "Research {topic} for {company}" "" "" [] none)] []
      ["other = 1"] ∧
    (InputVariableModel.mk "topic" "").default_value = "" := by
  refine ⟨by decide, by decide, ?_⟩
  exact C9_input_variables.2.2.2
    [("http://x#T1", TaskModel.mk "http://x#T1" "t1"
      "Research {topic} for {company}" "" "" [] none)] []
    ["other = 1"] "topic"
    (by decide)
    (InputVariableModel.mk "topic" "") (by decide) rfl

theorem env_fold_eq (rows : List PairRow) :
    ∀ (out : List ConfigModel) (seen : List String),
      (rows.foldl envStep (out, seen)).1 = out ++ dedupRowsAux seen rows := by
  induction rows with
  | nil => intro out seen; simp [dedupRowsAux]
  | cons r rest ih =>
    intro out seen
    rw [List.foldl_cons]
    by_cases hk : rowStr r.a ∈ seen
    · have hstep : envStep (out, seen) r = (out, seen) := by
        simp [envStep, hk]
      rw [hstep, ih, dedupRowsAux, if_pos hk]
    · have hstep : envStep (out, seen) r =
        (out ++ [ConfigModel.mk (rowStr r.a) (rowStr r.b)],
          rowStr r.a :: seen) := by
        simp [envStep, hk]
      rw [hstep, ih, dedupRowsAux, if_neg hk]
      simp

theorem dedup_nodup (rows : List PairRow) :
    ∀ seen, (∀ e ∈ dedupRowsAux seen rows, ¬ e.key ∈ seen) ∧
      ((dedupRowsAux seen rows).map (fun e => e.key)).Nodup := by
  induction rows with
  | nil => intro seen; simp [dedupRowsAux]
  | cons r rest ih =>
    intro seen
    by_cases hk : rowStr r.a ∈ seen
    · simp only [dedupRowsAux, if_pos hk]
      exact ih seen
    · simp only [dedupRowsAux, if_neg hk]
      constructor
      · intro e he
        rcases List.mem_cons.mp he with he1 | he2
        · rw [he1]
          exact hk
        · intro hmem
          exact (ih (rowStr r.a :: seen)).1 e he2
            (List.mem_cons_of_mem _ hmem)
      · rw [List.map_cons, List.nodup_cons]
        constructor
        · intro hmem
          rcases List.mem_map.mp hmem with ⟨e, he, hkey⟩
          exact (ih (rowStr r.a :: seen)).1 e he
            (hkey ▸ List.mem_cons_self _ _)
        · exact (ih (rowStr r.a :: seen)).2

theorem dedup_first (rows : List PairRow) :
    ∀ seen e, e ∈ dedupRowsAux seen rows →
      ∃ r, rows.find? (fun r => decide (rowStr r.a = e.key)) = some r ∧
        rowStr r.a = e.key ∧ rowStr r.b = e.value := by
  induction rows with
  | nil => intro seen e he; simp [dedupRowsAux] at he
  | cons r rest ih =>
    intro seen e he
    by_cases hk : rowStr r.a ∈ seen
    · rw [dedupRowsAux, if_pos hk] at he
      have hnot : ¬ e.key ∈ seen := (dedup_nodup rest seen).1 e he
      have hne : ¬ (rowStr r.a = e.key) := by
        intro hh
        exact hnot (hh ▸ hk)
      rcases ih seen e he with ⟨r', hr', h1, h2⟩
      refine ⟨r', ?_, h1, h2⟩
      simp only [List.find?, decide_eq_false hne]
      exact hr'
    · rw [dedupRowsAux, if_neg hk] at he
      rcases List.mem_cons.mp he with he1 | he2
      · subst he1
        refine ⟨r, ?_, rfl, rfl⟩
        simp [List.find?]
      · have hnot : ¬ e.key ∈ rowStr r.a :: seen :=
          (dedup_nodup rest (rowStr r.a :: seen)).1 e he2
        have hne : ¬ (rowStr r.a = e.key) := by
          intro hh
          exact hnot (hh ▸ List.mem_cons_self _ _)
        rcases ih (rowStr r.a :: seen) e he2 with ⟨r', hr', h1, h2⟩
        refine ⟨r', ?_, h1, h2⟩
        simp only [List.find?, decide_eq_false hne]
        exact hr'

theorem dedup_complete (rows : List PairRow) :
    ∀ seen r, r ∈ rows →
      rowStr r.a ∈ seen ∨
        ∃ e ∈ dedupRowsAux seen rows, e.key = rowStr r.a := by
  induction rows with
  | nil => intro seen r hr; cases hr
  | cons r0 rest ih =>
    intro seen r hr
    by_cases hk : rowStr r0.a ∈ seen
    · rcases List.mem_cons.mp hr with hr1 | hr2
      · subst hr1
        exact Or.inl hk
      · rcases ih seen r hr2 with h1 | ⟨e, he, hekey⟩
        · exact Or.inl h1
        · right
          rw [dedupRowsAux, if_pos hk]
          exact ⟨e, he, hekey⟩
    · rcases List.mem_cons.mp hr with hr1 | hr2
      · subst hr1
        right
        rw [dedupRowsAux, if_neg hk]
        exact ⟨_, List.mem_cons_self _ _, rfl⟩
      · rcases ih (rowStr r0.a :: seen) r hr2 with h1 | ⟨e, he, hekey⟩
        · rcases List.mem_cons.mp h1 with h1a | h1b
          · right
            rw [dedupRowsAux, if_neg hk]
            exact ⟨_, List.mem_cons_self _ _, h1a.symm⟩
          · exact Or.inl h1b
        · right
          rw [dedupRowsAux, if_neg hk]
          exact ⟨e, List.mem_cons_of_mem _ he, hekey⟩

/-- C10: the EnvVarEntry list contains at most one entry per distinct
(stripped) key: keys are duplicate-free, every entry comes from the
first row carrying its key (with that row's value), and every row's
key is represented; the key filter ("api_key"/"env" in the lowercased
key) is the `ENV_CONFIG_QUERY` condition `envKeyLike` applied to the
row source. -/
theorem C10_env_dedup :
    ∀ rows : List PairRow,
      extract_env_vars rows = dedupRowsAux [] rows ∧
      ((extract_env_vars rows).map (fun e => e.key)).Nodup ∧
      (∀ e ∈ extract_env_vars rows,
        ∃ r, rows.find? (fun r => decide (rowStr r.a = e.key)) = some r ∧
          rowStr r.a = e.key ∧ rowStr r.b = e.value) ∧
      (∀ r ∈ rows, ∃ e ∈ extract_env_vars rows, e.key = rowStr r.a) ∧
      ((extract_env_vars (rows.filter (fun r => envKeyLike r.a))).map
        (fun e => e.key)).Nodup := by
  intro rows
  have heq : extract_env_vars rows = dedupRowsAux [] rows := by
    unfold extract_env_vars
    rw [env_fold_eq rows [] []]
    simp
  have heqf : extract_env_vars (rows.filter (fun r => envKeyLike r.a)) =
      dedupRowsAux [] (rows.filter (fun r => envKeyLike r.a)) := by
    unfold extract_env_vars
    rw [env_fold_eq _ [] []]
    simp
  refine ⟨heq, ?_, ?_, ?_, ?_⟩
  · rw [heq]
    exact (dedup_nodup rows []).2
  · rw [heq]
    exact dedup_first rows []
  · intro r hr
    rw [heq]
    rcases dedup_complete rows [] r hr with h1 | h2
    · cases h1
    · exact h2
  · rw [heqf]
    exact (dedup_nodup _ []).2

theorem C10_env_dedup_witness :
    extract_env_vars
      [PairRow.mk "OPENAI_API_KEY" "k1", PairRow.mk "SERPER_API_KEY" "k2",
        PairRow.mk "OPENAI_API_KEY" "k3"] =
      [ConfigModel.mk "OPENAI_API_KEY" "k1",
        ConfigModel.mk "SERPER_API_KEY" "k2"] ∧
    (∃ e ∈ extract_env_vars
      [PairRow.mk "OPENAI_API_KEY" "k1", PairRow.mk "SERPER_API_KEY" "k2",
        PairRow.mk "OPENAI_API_KEY" "k3"],
      e.key = rowStr (PairRow.mk "OPENAI_API_KEY" "k3").a) := by
  constructor
  · decide
  · exact (C10_env_dedup
      [PairRow.mk "OPENAI_API_KEY" "k1", PairRow.mk "SERPER_API_KEY" "k2",
        PairRow.mk "OPENAI_API_KEY" "k3"]).2.2.2.1
      (PairRow.mk "OPENAI_API_KEY" "k3") (by decide)

end Spec2Proof
